import Mathlib

/-!
# Verification of the point-cloud kernels

Shallow embedding of the three Python compute kernels of the repository:

* `voxel_downsample` — binary-protocol voxel downsampling kernel
  (`src/backend/src/services/tools/python/voxel_downsample/voxel_downsample_python.py`);
* `voxel_downsample_legacy` — JSON-protocol voxel downsampling kernel
  (`src/backend/src/services/tools/voxel_downsample_python.py`);
* `generate_voxel_centers` — voxel debug kernel
  (`src/backend/src/services/tools/python/voxel_debug/voxel_debug_python.py`);
* `point_cloud_smooth` — smoothing kernel
  (`src/backend/src/services/tools/python/point_smooth/point_smooth_python.py`).

Python floats are modelled as exact rationals extended with the IEEE special
values NaN, +Inf and -Inf (`PyF`); real-valued rounding is not modelled, so all
finite arithmetic is exact.  Python's arbitrary-precision integers are `ℤ`,
with `<<` as exact multiplication by a power of two and `|` as `Int.lor`
(two's-complement bitwise or, Python's semantics).  Python `dict`s are
insertion-ordered association lists, Python `set`s are first-occurrence-ordered
duplicate-free lists (their iteration order is not observable in any claim).
Exceptions are `Except String`.
-/

deriving instance DecidableEq for Except

attribute [local semireducible] Rat.add Rat.mul Rat.sub Rat.inv

/-- `math.floor` on a finite float: mathematical floor (computable form;
`ratFloor_eq` identifies it with `Int.floor`). -/
def ratFloor (q : ℚ) : ℤ := q.num / q.den

theorem ratFloor_eq (q : ℚ) : ratFloor q = ⌊q⌋ := Rat.floor_def.symm

/-- Python `int(f)` on a finite float: truncation toward zero. -/
def ratTrunc (q : ℚ) : ℤ :=
  if 0 ≤ q then ratFloor q else -ratFloor (-q)

/-- Python `x << n` on an `int`: exact multiplication by `2 ^ n`
(sign-preserving, no overflow). -/
def pyShiftL (a : ℤ) (n : ℕ) : ℤ := a * 2 ^ n

/-- A Python float: an exact finite rational, or one of the IEEE special
values.  Finite rounding is not modelled. -/
inductive PyF where
  | fin (q : ℚ)
  | nan
  | inf
  | ninf
deriving DecidableEq, Repr

/-- `math.isnan`. -/
def PyF.isnan : PyF → Bool
  | .nan => true
  | _ => false

/-- `math.isinf` (true for both infinities, as in Python). -/
def PyF.isinf : PyF → Bool
  | .inf => true
  | .ninf => true
  | _ => false

/-- IEEE comparison `f <= 0` (false whenever `f` is NaN). -/
def PyF.le0 : PyF → Bool
  | .fin q => decide (q ≤ 0)
  | .nan => false
  | .inf => false
  | .ninf => true

/-- IEEE addition on `PyF` (finite part exact). -/
def PyF.add : PyF → PyF → PyF
  | .fin a, .fin b => .fin (a + b)
  | .nan, _ => .nan
  | _, .nan => .nan
  | .inf, .ninf => .nan
  | .ninf, .inf => .nan
  | .inf, _ => .inf
  | _, .inf => .inf
  | .ninf, _ => .ninf
  | _, .ninf => .ninf

/-- IEEE subtraction on `PyF` (finite part exact). -/
def PyF.sub : PyF → PyF → PyF
  | .fin a, .fin b => .fin (a - b)
  | .nan, _ => .nan
  | _, .nan => .nan
  | .inf, .inf => .nan
  | .ninf, .ninf => .nan
  | .inf, _ => .inf
  | _, .inf => .ninf
  | .ninf, _ => .ninf
  | _, .ninf => .inf

/-- IEEE multiplication on `PyF` (finite part exact; `0 * ±Inf = NaN`). -/
def PyF.mul : PyF → PyF → PyF
  | .fin a, .fin b => .fin (a * b)
  | .nan, _ => .nan
  | _, .nan => .nan
  | .inf, .inf => .inf
  | .inf, .ninf => .ninf
  | .ninf, .inf => .ninf
  | .ninf, .ninf => .inf
  | .inf, .fin q => if 0 < q then .inf else if q < 0 then .ninf else .nan
  | .ninf, .fin q => if 0 < q then .ninf else if q < 0 then .inf else .nan
  | .fin q, .inf => if 0 < q then .inf else if q < 0 then .ninf else .nan
  | .fin q, .ninf => if 0 < q then .ninf else if q < 0 then .inf else .nan

/-- IEEE reciprocal `1.0 / f` (finite part exact; `1/±Inf = 0`; the `1/0`
case is never reached by the kernels, which validate positivity first). -/
def PyF.rcp : PyF → PyF
  | .fin q => .fin q⁻¹
  | .nan => .nan
  | .inf => .fin 0
  | .ninf => .fin 0

/-- Python `int(math.floor(f))`: mathematical floor on a finite float;
`math.floor` raises `ValueError` on NaN and `OverflowError` on ±Inf. -/
def pyFloorInt : PyF → Except String ℤ
  | .fin q => .ok (ratFloor q)
  | .nan => .error "ValueError: cannot convert float NaN to integer"
  | .inf => .error "OverflowError: cannot convert float infinity to integer"
  | .ninf => .error "OverflowError: cannot convert float infinity to integer"

/-- Python `int(f)` on a float: truncation toward zero on a finite float;
raises on NaN and ±Inf exactly like `pyFloorInt`. -/
def pyTruncInt : PyF → Except String ℤ
  | .fin q => .ok (ratTrunc q)
  | .nan => .error "ValueError: cannot convert float NaN to integer"
  | .inf => .error "OverflowError: cannot convert float infinity to integer"
  | .ninf => .error "OverflowError: cannot convert float infinity to integer"

/-- A position triple of exact rationals (used by the smoothing kernel,
whose claims only concern finite inputs). -/
structure Pt where
  x : ℚ
  y : ℚ
  z : ℚ
deriving DecidableEq, Repr, Inhabited

/-- Group a flat coordinate list into consecutive triples
(`[x0,y0,z0,x1,…] ↦ [(x0,y0,z0),…]`); a trailing partial triple is dropped
(the kernels guard `len % 3 == 0` before iterating). -/
def toTriples : List ℚ → List Pt
  | x :: y :: z :: rest => ⟨x, y, z⟩ :: toTriples rest
  | _ => []

/-- Flatten a triple list back to the wire layout. -/
def flattenPts (ts : List Pt) : List ℚ :=
  ts.foldr (fun p acc => p.x :: p.y :: p.z :: acc) []

/-- Group a flat `PyF` coordinate list into consecutive triples. -/
def toTriplesF : List PyF → List (PyF × PyF × PyF)
  | x :: y :: z :: rest => (x, y, z) :: toTriplesF rest
  | _ => []

/-! ## Voxel downsample / debug kernels -/

/-- The `global_bounds` dictionary of the voxel kernels. -/
structure GBounds where
  min_x : PyF
  max_x : PyF
  min_y : PyF
  max_y : PyF
  min_z : PyF
  max_z : PyF
deriving DecidableEq, Repr

/-- The bounds-validation condition of the voxel kernels:
any of the six bounds is NaN. -/
def GBounds.hasNaN (b : GBounds) : Bool :=
  b.min_x.isnan || b.max_x.isnan || b.min_y.isnan ||
  b.max_y.isnan || b.min_z.isnan || b.max_z.isnan

/-- The packed voxel key `(vx << 32) | (vy << 16) | vz` (Python `int`
semantics: exact shift, two's-complement bitwise or). -/
def voxelKey (vx vy vz : ℤ) : ℤ :=
  Int.lor (Int.lor (pyShiftL vx 32) (pyShiftL vy 16)) vz

/-- One `voxel_map` accumulator cell: coordinate sums and point count. -/
structure VAcc where
  sx : PyF
  sy : PyF
  sz : PyF
  n : ℕ
deriving DecidableEq, Repr

/-- `voxel_map` update: on a key miss append a fresh accumulator holding the
point itself (count 1); on a hit add the point into the existing cell in
place.  The list models a Python dict in insertion order. -/
def insertVox (k : ℤ) (x y z : PyF) : List (ℤ × VAcc) → List (ℤ × VAcc)
  | [] => [(k, ⟨x, y, z, 1⟩)]
  | (k', a) :: rest =>
    if k' = k then (k', ⟨a.sx.add x, a.sy.add y, a.sz.add z, a.n + 1⟩) :: rest
    else (k', a) :: insertVox k x y z rest

/-- Per-axis voxel coordinate of the binary-protocol downsample kernel (and
of the debug kernel): `int(math.floor((c - min) * inv_voxel_size))`. -/
def dsAxis (mn inv c : PyF) : Except String ℤ :=
  pyFloorInt ((c.sub mn).mul inv)

/-- Per-axis voxel coordinate of the legacy JSON downsample kernel:
`int((c - min) * inv_voxel_size)` — truncation toward zero, not floor. -/
def dsAxisLegacy (mn inv c : PyF) : Except String ℤ :=
  pyTruncInt ((c.sub mn).mul inv)

/-- The finite-input value of `dsAxis`: the floor voxel coordinate of one
axis (`dsAxis (.fin mn) (.fin inv) (.fin c) = .ok (voxelIdx mn inv c)`). -/
def voxelIdx (mn inv c : ℚ) : ℤ := ratFloor ((c - mn) * inv)

/-- The voxel index triple of a finite point under the floor semantics of
the binary downsample and debug kernels. -/
def voxelTriple (mnx mny mnz inv : ℚ) (p : Pt) : ℤ × ℤ × ℤ :=
  (voxelIdx mnx inv p.x, voxelIdx mny inv p.y, voxelIdx mnz inv p.z)

/-- The packed key of a voxel index triple. -/
def voxelKey3 (v : ℤ × ℤ × ℤ) : ℤ := voxelKey v.1 v.2.1 v.2.2

/-- Inject a finite point into the `PyF` coordinate triple fed to a voxel
kernel. -/
def finTriple (p : Pt) : PyF × PyF × PyF := (.fin p.x, .fin p.y, .fin p.z)

/-- The key list of a `voxel_map` association list (Python `dict` keys, in
insertion order). -/
def mkeys (m : List (ℤ × VAcc)) : List ℤ := m.map Prod.fst

/-- Voxel key of one point in the binary-protocol downsample kernel:
`floor` indices on each axis, then the packed key.  Raises if a coordinate
is not finite (the binary kernel performs no NaN/Inf skip; its `math.floor`
call is what fails). -/
def dsKey (mnx mny mnz inv : PyF) (t : PyF × PyF × PyF) : Except String ℤ := do
  let vx ← dsAxis mnx inv t.1
  let vy ← dsAxis mny inv t.2.1
  let vz ← dsAxis mnz inv t.2.2
  pure (voxelKey vx vy vz)

/-- The accumulation loop of the binary-protocol downsample kernel.
The source iterates in chunks of 1024 for cache locality; chunked iteration
visits exactly the points in order, so it is modelled as one fold. -/
def dsFold (mnx mny mnz inv : PyF) (ts : List (PyF × PyF × PyF)) :
    Except String (List (ℤ × VAcc)) :=
  ts.foldlM (fun m t => do
    let k ← dsKey mnx mny mnz inv t
    pure (insertVox k t.1 t.2.1 t.2.2 m)) []

/-- Mean of one accumulator cell, computed as the source does:
`inv_count = 1.0 / count`, then three multiplications. -/
def vaccMean (a : VAcc) : List PyF :=
  [a.sx.mul (.fin ((a.n : ℚ)⁻¹)), a.sy.mul (.fin ((a.n : ℚ)⁻¹)),
   a.sz.mul (.fin ((a.n : ℚ)⁻¹))]

/-- The binary-protocol voxel downsample kernel
(`python/voxel_downsample/voxel_downsample_python.py`, `voxel_downsample`).
Returns the flat downsampled point list and `len(voxel_map)`. -/
def voxel_downsample (points : List PyF) (voxel_size : PyF) (gb : GBounds) :
    Except String (List PyF × ℕ) :=
  if points = [] || points.length % 3 != 0 then .ok ([], 0)
  else if voxel_size.le0 || voxel_size.isnan || voxel_size.isinf then
    .error "Invalid voxel_size"
  else if gb.hasNaN then .error "Invalid bounds detected"
  else do
    let m ← dsFold gb.min_x gb.min_y gb.min_z voxel_size.rcp (toTriplesF points)
    pure ((m.map (fun e => vaccMean e.2)).flatten, m.length)

/-- The NaN/Inf skip condition of the debug and legacy kernels:
`isnan(x) or isnan(y) or isnan(z) or isinf(x) or isinf(y) or isinf(z)`. -/
def skipTriple (t : PyF × PyF × PyF) : Bool :=
  t.1.isnan || t.2.1.isnan || t.2.2.isnan || t.1.isinf || t.2.1.isinf || t.2.2.isinf

/-- Python `set.add` on the debug kernel's `voxel_coords`, modelled as a
duplicate-free list in first-occurrence order (set iteration order is not
observable in any verified claim). -/
def insertSet (t : ℤ × ℤ × ℤ) (s : List (ℤ × ℤ × ℤ)) : List (ℤ × ℤ × ℤ) :=
  if t ∈ s then s else s ++ [t]

/-- One step of the debug kernel's loop: skip a point with a NaN/Inf
coordinate, otherwise record its floor voxel coordinate triple. -/
def dbgStep (mnx mny mnz inv : PyF) (s : List (ℤ × ℤ × ℤ)) (t : PyF × PyF × PyF) :
    Except String (List (ℤ × ℤ × ℤ)) :=
  if skipTriple t then pure s
  else do
    let vx ← dsAxis mnx inv t.1
    let vy ← dsAxis mny inv t.2.1
    let vz ← dsAxis mnz inv t.2.2
    pure (insertSet (vx, vy, vz) s)

/-- World-space center of one voxel, as the debug kernel computes it:
`offset + voxel_index * voxel_size` per axis. -/
def voxelCenter (ox oy oz vs : PyF) (v : ℤ × ℤ × ℤ) : List PyF :=
  [ox.add ((PyF.fin (v.1 : ℚ)).mul vs), oy.add ((PyF.fin (v.2.1 : ℚ)).mul vs),
   oz.add ((PyF.fin (v.2.2 : ℚ)).mul vs)]

/-- The voxel debug kernel
(`python/voxel_debug/voxel_debug_python.py`, `generate_voxel_centers`).
The source iterates in chunks of 1000 with an always-true `i + 2 < len`
guard; chunked iteration visits exactly the triples in order, so it is
modelled as one fold. -/
def generate_voxel_centers (points : List PyF) (voxel_size : PyF) (gb : GBounds) :
    Except String (List PyF) :=
  if points = [] || points.length % 3 != 0 then .ok []
  else if voxel_size.le0 || voxel_size.isnan || voxel_size.isinf then
    .error "Invalid voxel_size"
  else if gb.hasNaN then .error "Invalid bounds detected"
  else do
    let s ← (toTriplesF points).foldlM
      (dbgStep gb.min_x gb.min_y gb.min_z voxel_size.rcp) []
    let hv := voxel_size.mul (.fin (1/2))
    let ox := gb.min_x.add hv
    let oy := gb.min_y.add hv
    let oz := gb.min_z.add hv
    pure ((s.map (voxelCenter ox oy oz voxel_size)).flatten)

/-- IEEE division of a float by a positive integer count (finite part
exact); used by the legacy kernel's `sum / count`. -/
def PyF.divNat : PyF → ℕ → PyF
  | .fin q, n => .fin (q / n)
  | .nan, _ => .nan
  | .inf, _ => .inf
  | .ninf, _ => .ninf

/-- Voxel key of one point in the legacy JSON downsample kernel
(`tools/voxel_downsample_python.py`): `int()` truncation toward zero on
each axis — not `floor` — then the packed key. -/
def dsKeyLegacy (mnx mny mnz inv : PyF) (t : PyF × PyF × PyF) : Except String ℤ := do
  let vx ← dsAxisLegacy mnx inv t.1
  let vy ← dsAxisLegacy mny inv t.2.1
  let vz ← dsAxisLegacy mnz inv t.2.2
  pure (voxelKey vx vy vz)

/-- Accumulation loop of the legacy JSON downsample kernel: skips NaN/Inf
points, then truncation-based key and dict accumulation. -/
def dsFoldLegacy (mnx mny mnz inv : PyF) (ts : List (PyF × PyF × PyF)) :
    Except String (List (ℤ × VAcc)) :=
  ts.foldlM (fun m t => do
    if skipTriple t then pure m
    else do
      let k ← dsKeyLegacy mnx mny mnz inv t
      pure (insertVox k t.1 t.2.1 t.2.2 m)) []

/-- The legacy JSON-protocol voxel downsample kernel
(`tools/voxel_downsample_python.py`, `voxel_downsample`).  Differs from the
binary kernel in skipping NaN/Inf points and in using `int()` truncation
for the voxel indices.  Emits `sum / count` per axis. -/
def voxel_downsample_legacy (points : List PyF) (voxel_size : PyF) (gb : GBounds) :
    Except String (List PyF × ℕ) :=
  if points = [] || points.length % 3 != 0 then .ok ([], 0)
  else if voxel_size.le0 || voxel_size.isnan || voxel_size.isinf then
    .error "Invalid voxel_size"
  else if gb.hasNaN then .error "Invalid bounds detected"
  else do
    let m ← dsFoldLegacy gb.min_x gb.min_y gb.min_z voxel_size.rcp (toTriplesF points)
    pure ((m.map (fun e =>
      [e.2.sx.divNat e.2.n, e.2.sy.divNat e.2.n, e.2.sz.divNat e.2.n])).flatten,
      m.length)

/-- Observable outcome of one `main()` run of the binary downsample program:
the `u32` count written to stdout (if any) and the process exit status. -/
structure MainRes where
  written : Option ℕ
  exitCode : ℕ
deriving DecidableEq, Repr

/-- The `MAX_POINTS` allocation cap of the binary downsample `main`. -/
def MAX_POINTS : ℕ := 100000000

/-- `main()` of the binary-protocol downsample program
(`python/voxel_downsample/voxel_downsample_python.py`), after a complete
header read; the payload floats are the `points` argument (framing
truncation is out of scope of the modelled claims).  Validation rejection
writes `u32 0` and exits 0; an exception from the kernel is caught, writes
`u32 0` and exits 1; size-cap rejections exit 1 having written nothing. -/
def voxel_downsample_main (point_count : ℕ) (voxel_size : PyF) (gb : GBounds)
    (points : List PyF) : MainRes :=
  if point_count = 0 || voxel_size.le0 then ⟨some 0, 0⟩
  else if MAX_POINTS < point_count then ⟨none, 1⟩
  else if 2000000000 < point_count * 3 * 4 then ⟨none, 1⟩
  else
    match voxel_downsample points voxel_size gb with
    | .ok (dp, _) => ⟨some (dp.length / 3), 0⟩
    | .error _ => ⟨some 0, 1⟩

/-! ## Point smoothing kernel -/

/-- Axis-aligned bounding box state of the smoothing kernel's single-pass
scan (`min_x, max_x, min_y, max_y, min_z, max_z`). -/
structure BBox where
  mnx : ℚ
  mxx : ℚ
  mny : ℚ
  mxy : ℚ
  mnz : ℚ
  mxz : ℚ
deriving DecidableEq, Repr

/-- One step of the bounding-box scan. -/
def bboxStep (b : BBox) (p : Pt) : BBox :=
  ⟨min b.mnx p.x, max b.mxx p.x, min b.mny p.y, max b.mxy p.y,
   min b.mnz p.z, max b.mxz p.z⟩

/-- The bounding-box scan: seeded from point 0, folded over the rest
(the source starts its loop at index 3 of the flat array). -/
def computeBBox (t0 : Pt) (rest : List Pt) : BBox :=
  rest.foldl bboxStep ⟨t0.x, t0.x, t0.y, t0.y, t0.z, t0.z⟩

/-- The per-run constants of the smoothing kernel: grid origin (the bounding
box minima), `cell_size`, `inv_cell_size`, `radius_squared`, and the grid
dimensions.  Computed once, before the iteration loop, in the source. -/
structure SmoothCtx where
  mnx : ℚ
  mny : ℚ
  mnz : ℚ
  cell : ℚ
  invc : ℚ
  r2 : ℚ
  gw : ℤ
  gh : ℤ
  gsize : ℤ
deriving DecidableEq, Repr

/-- Build the smoothing constants from a bounding box and the radius:
`cell_size = smoothing_radius`, `inv_cell_size = 1.0 / cell_size`,
`grid_width = int((max_x - min_x) * inv_cell_size) + 1` (Python `int()`
truncation), likewise for the other axes, `grid_size` their product. -/
def mkCtx (b : BBox) (r : ℚ) : SmoothCtx :=
  let cell := r
  let invc := 1 / cell
  let gw := ratTrunc ((b.mxx - b.mnx) * invc) + 1
  let gh := ratTrunc ((b.mxy - b.mny) * invc) + 1
  let gd := ratTrunc ((b.mxz - b.mnz) * invc) + 1
  ⟨b.mnx, b.mny, b.mnz, cell, invc, r * r, gw, gh, gw * gh * gd⟩

/-- Flattened grid index of a world coordinate:
`int((x-min_x)*inv) + int((y-min_y)*inv)*gw + int((z-min_z)*inv)*gw*gh`.
Note the guard used by the kernel checks only this flattened value, not the
per-axis cell coordinates. -/
def gridIndexAt (ctx : SmoothCtx) (x y z : ℚ) : ℤ :=
  let gx := ratTrunc ((x - ctx.mnx) * ctx.invc)
  let gy := ratTrunc ((y - ctx.mny) * ctx.invc)
  let gz := ratTrunc ((z - ctx.mnz) * ctx.invc)
  gx + gy * ctx.gw + gz * ctx.gw * ctx.gh

/-- Grid population: for each point index `i` (in order), append `i` to the
cell of its position, guarded by `0 <= grid_index < grid_size` on the
flattened index.  The grid is a fresh array of empty cells each iteration
(the source clears and reuses one allocation; contents are identical). -/
def populate (ctx : SmoothCtx) (temp : List Pt) : List (List ℕ) :=
  (List.range temp.length).foldl
    (fun g i =>
      let p := temp.getD i default
      let gi := gridIndexAt ctx p.x p.y p.z
      if 0 ≤ gi ∧ gi < ctx.gsize then g.set gi.toNat (g.getD gi.toNat [] ++ [i])
      else g)
    (List.replicate ctx.gsize.toNat [])

/-- Squared Euclidean distance between two points, in the operand order of
the kernel's inner loop (`j`-point minus `i`-point per axis). -/
def sqDist (p q : Pt) : ℚ :=
  (q.x - p.x) * (q.x - p.x) + (q.y - p.y) * (q.y - p.y) + (q.z - p.z) * (q.z - p.z)

/-- Neighbor-gather accumulator: coordinate sums and neighbor count. -/
structure GAcc where
  sx : ℚ
  sy : ℚ
  sz : ℚ
  cnt : ℕ
deriving DecidableEq, Repr

/-- Inner loop over one grid cell: for each stored index `j ≠ i`, add point
`j` to the sums when its squared distance to `(x,y,z)` is at most
`radius_squared`. -/
def cellStep (r2 : ℚ) (temp : List Pt) (i : ℕ) (x y z : ℚ) (a : GAcc) (j : ℕ) : GAcc :=
  if j = i then a
  else
    let q := temp.getD j default
    let dx2 := q.x - x
    let dy2 := q.y - y
    let dz2 := q.z - z
    if dx2 * dx2 + dy2 * dy2 + dz2 * dz2 ≤ r2 then
      ⟨a.sx + q.x, a.sy + q.y, a.sz + q.z, a.cnt + 1⟩
    else a

/-- One of the 27 neighbor-cell visits: the cell looked up is the cell of
the shifted world coordinate `(x+dx*cell, y+dy*cell, z+dz*cell)`, guarded
only by `0 <= grid_index < grid_size` on the flattened index. -/
def offStep (ctx : SmoothCtx) (grid : List (List ℕ)) (temp : List Pt) (i : ℕ)
    (x y z : ℚ) (a : GAcc) (dx dy dz : ℤ) : GAcc :=
  let gi := gridIndexAt ctx (x + dx * ctx.cell) (y + dy * ctx.cell) (z + dz * ctx.cell)
  if 0 ≤ gi ∧ gi < ctx.gsize then
    (grid.getD gi.toNat []).foldl (cellStep ctx.r2 temp i x y z) a
  else a

/-- The `(-1, 0, 1)` offset tuple of the 27-cell neighborhood loops. -/
def offs : List ℤ := [-1, 0, 1]

/-- The 27-cell neighborhood accumulation for point `i` at `(x,y,z)`
(dx outermost, dz innermost, as in the source's nested loops). -/
def gatherAcc (ctx : SmoothCtx) (grid : List (List ℕ)) (temp : List Pt) (i : ℕ)
    (x y z : ℚ) : GAcc :=
  offs.foldl (fun a dx =>
    offs.foldl (fun a dy =>
      offs.foldl (fun a dz => offStep ctx grid temp i x y z a dx dy dz) a) a)
    ⟨0, 0, 0, 0⟩

/-- Gather step for point `i`: visit the 27 neighbor cells, then average
when any neighbor was found, else keep the point. -/
def gatherPoint (ctx : SmoothCtx) (grid : List (List ℕ)) (temp : List Pt) (i : ℕ) : Pt :=
  let p := temp.getD i default
  let a := gatherAcc ctx grid temp i p.x p.y p.z
  if 0 < a.cnt then
    ⟨(p.x + a.sx) / (a.cnt + 1), (p.y + a.sy) / (a.cnt + 1), (p.z + a.sz) / (a.cnt + 1)⟩
  else p

/-- One smoothing iteration: copy the current points to `temp`, populate the
grid from `temp`, and recompute every point from `temp` (writes go to the
other buffer, so the iteration is a pure map). -/
def smoothIter (ctx : SmoothCtx) (temp : List Pt) : List Pt :=
  let grid := populate ctx temp
  (List.range temp.length).map (gatherPoint ctx grid temp)

/-- The smoothing kernel
(`python/point_smooth/point_smooth_python.py`, `point_cloud_smooth`).
Validation mirrors the source: empty or non-multiple-of-3 input returns
`[]`; non-positive radius or iteration count raises `ValueError`.  The
bounding box and grid dimensions are computed once, from the input
positions, before the iteration loop. -/
def point_cloud_smooth (points : List ℚ) (smoothing_radius : ℚ) (iterations : ℤ) :
    Except String (List ℚ) :=
  if points = [] || points.length % 3 != 0 then .ok []
  else if smoothing_radius ≤ 0 then .error "Invalid smoothing_radius"
  else if iterations ≤ 0 then .error "Invalid iterations"
  else
    match toTriples points with
    | [] => .ok []
    | t0 :: rest =>
      let ctx := mkCtx (computeBBox t0 rest) smoothing_radius
      .ok (flattenPts ((smoothIter ctx)^[iterations.toNat] (t0 :: rest)))

/-- Modelled from the spec (§4.4 step 1 "Scan `prev` once to compute its
axis-aligned bounding box" and "The bounding box is recomputed every
iteration because points move"): identical to `smoothIter` except that the
bounding box — and the grid origin and dimensions derived from it — is
recomputed from the current point positions at the start of the iteration.
Used only to compare against the code, which computes them once. -/
def smoothIterRespec (r : ℚ) (temp : List Pt) : List Pt :=
  match temp with
  | [] => []
  | t0 :: rest => smoothIter (mkCtx (computeBBox t0 rest) r) (t0 :: rest)

/-- Modelled from the spec: the smoothing kernel as §4.4 describes it, with
the per-iteration bounding-box recomputation of `smoothIterRespec`;
everything else is the code's `smoothIter`. -/
def point_cloud_smooth_respec (points : List ℚ) (smoothing_radius : ℚ)
    (iterations : ℤ) : Except String (List ℚ) :=
  if points = [] || points.length % 3 != 0 then .ok []
  else if smoothing_radius ≤ 0 then .error "Invalid smoothing_radius"
  else if iterations ≤ 0 then .error "Invalid iterations"
  else
    .ok (flattenPts ((smoothIterRespec smoothing_radius)^[iterations.toNat]
      (toTriples points)))

/-! ### Bounds-checked variant of the smoothing kernel

The same computation with every container access checked: a list read
returns `none` when the index is out of bounds, and `none` propagates.
`point_cloud_smooth_checked = some ∘ point_cloud_smooth` states that no
access of the kernel — the grid reads and appends of the populate loop,
the 27-cell gather loop's cell reads, and the point reads at indices taken
from grid cells — is ever out of bounds. -/

/-- `cellStep` with the read of point `j` (an index taken from a grid cell)
bounds-checked. -/
def cellStepC (r2 : ℚ) (temp : List Pt) (i : ℕ) (x y z : ℚ) (a : GAcc) (j : ℕ) :
    Option GAcc :=
  if j = i then some a
  else
    match temp[j]? with
    | none => none
    | some q =>
      let dx2 := q.x - x
      let dy2 := q.y - y
      let dz2 := q.z - z
      some (if dx2 * dx2 + dy2 * dy2 + dz2 * dz2 ≤ r2 then
        ⟨a.sx + q.x, a.sy + q.y, a.sz + q.z, a.cnt + 1⟩
      else a)

/-- `offStep` with the grid-cell read bounds-checked (the read happens only
under the kernel's `0 <= grid_index < grid_size` guard). -/
def offStepC (ctx : SmoothCtx) (grid : List (List ℕ)) (temp : List Pt) (i : ℕ)
    (x y z : ℚ) (a : GAcc) (dx dy dz : ℤ) : Option GAcc :=
  let gi := gridIndexAt ctx (x + dx * ctx.cell) (y + dy * ctx.cell) (z + dz * ctx.cell)
  if 0 ≤ gi ∧ gi < ctx.gsize then
    match grid[gi.toNat]? with
    | none => none
    | some cell => cell.foldlM (cellStepC ctx.r2 temp i x y z) a
  else some a

/-- `gatherAcc` with all accesses bounds-checked. -/
def gatherAccC (ctx : SmoothCtx) (grid : List (List ℕ)) (temp : List Pt) (i : ℕ)
    (x y z : ℚ) : Option GAcc :=
  offs.foldlM (fun a dx =>
    offs.foldlM (fun a dy =>
      offs.foldlM (fun a dz => offStepC ctx grid temp i x y z a dx dy dz) a) a)
    (⟨0, 0, 0, 0⟩ : GAcc)

/-- `gatherPoint` with all accesses bounds-checked. -/
def gatherPointC (ctx : SmoothCtx) (grid : List (List ℕ)) (temp : List Pt) (i : ℕ) :
    Option Pt := do
  let p ← temp[i]?
  let a ← gatherAccC ctx grid temp i p.x p.y p.z
  pure (if 0 < a.cnt then
    ⟨(p.x + a.sx) / (a.cnt + 1), (p.y + a.sy) / (a.cnt + 1), (p.z + a.sz) / (a.cnt + 1)⟩
  else p)

/-- `populate` with the grid-cell read-then-append bounds-checked. -/
def populateC (ctx : SmoothCtx) (temp : List Pt) : Option (List (List ℕ)) :=
  (List.range temp.length).foldlM
    (fun g i =>
      match temp[i]? with
      | none => none
      | some p =>
        let gi := gridIndexAt ctx p.x p.y p.z
        if 0 ≤ gi ∧ gi < ctx.gsize then
          match g[gi.toNat]? with
          | none => none
          | some cell => some (g.set gi.toNat (cell ++ [i]))
        else some g)
    (List.replicate ctx.gsize.toNat [])

/-- Failure-propagating map (`none` as soon as one element fails). -/
def mapOpt (g : α → Option β) : List α → Option (List β)
  | [] => some []
  | x :: xs => do
    let y ← g x
    let ys ← mapOpt g xs
    pure (y :: ys)

/-- `smoothIter` with all accesses bounds-checked. -/
def smoothIterC (ctx : SmoothCtx) (temp : List Pt) : Option (List Pt) := do
  let grid ← populateC ctx temp
  mapOpt (gatherPointC ctx grid temp) (List.range temp.length)

/-- `iterations` bounds-checked iterations of `smoothIterC`. -/
def smoothCoreC (ctx : SmoothCtx) : ℕ → List Pt → Option (List Pt)
  | 0, ps => some ps
  | k + 1, ps => do
    let ps' ← smoothIterC ctx ps
    smoothCoreC ctx k ps'

/-- The smoothing kernel with every container access bounds-checked. -/
def point_cloud_smooth_checked (points : List ℚ) (smoothing_radius : ℚ)
    (iterations : ℤ) : Option (Except String (List ℚ)) :=
  if points = [] || points.length % 3 != 0 then some (.ok [])
  else if smoothing_radius ≤ 0 then some (.error "Invalid smoothing_radius")
  else if iterations ≤ 0 then some (.error "Invalid iterations")
  else
    match toTriples points with
    | [] => some (.ok [])
    | t0 :: rest => do
      let out ← smoothCoreC (mkCtx (computeBBox t0 rest) smoothing_radius)
        iterations.toNat (t0 :: rest)
      pure (.ok (flattenPts out))

/-! ## Auxiliary lemmas -/

theorem toTriples_length : ∀ l : List ℚ, (toTriples l).length = l.length / 3
  | [] => by simp [toTriples]
  | [x] => by simp [toTriples]
  | [x, y] => by simp [toTriples]
  | x :: y :: z :: rest => by
    simp [toTriples, toTriples_length rest]
    omega

theorem flattenPts_length (ts : List Pt) : (flattenPts ts).length = 3 * ts.length := by
  induction ts with
  | nil => simp [flattenPts]
  | cons p ps ih => simp [flattenPts] at ih ⊢; omega

theorem toTriples_flattenPts (ts : List Pt) : toTriples (flattenPts ts) = ts := by
  induction ts with
  | nil => simp [flattenPts, toTriples]
  | cons p ps ih => simp [flattenPts, toTriples] at ih ⊢; exact ih

theorem flattenPts_toTriples : ∀ l : List ℚ, l.length % 3 = 0 →
    flattenPts (toTriples l) = l
  | [], _ => by simp [toTriples, flattenPts]
  | [x], h => by simp at h
  | [x, y], h => by simp at h
  | x :: y :: z :: rest, h => by
    have hr : rest.length % 3 = 0 := by simp at h; omega
    have ih := flattenPts_toTriples rest hr
    simp [toTriples, flattenPts] at ih ⊢
    exact ih

theorem getD_set {α : Type _} (g : List α) (n idx : ℕ) (a d : α) :
    (g.set n a).getD idx d = if idx = n ∧ n < g.length then a else g.getD idx d := by
  induction g generalizing n idx with
  | nil => simp [List.set]
  | cons x xs ih =>
    cases n with
    | zero => cases idx <;> simp [List.set, List.getD]
    | succ n =>
      cases idx with
      | zero => simp [List.set, List.getD]
      | succ idx => simpa [List.set, List.getD, Nat.succ_lt_succ_iff] using ih n idx

theorem getD_replicate {α : Type _} (n idx : ℕ) (c d : α) :
    (List.replicate n c).getD idx d = if idx < n then c else d := by
  induction n generalizing idx with
  | zero => simp [List.getD]
  | succ n ih =>
    cases idx with
    | zero => simp [List.replicate, List.getD]
    | succ idx => simpa [List.replicate, List.getD, Nat.succ_lt_succ_iff] using ih idx

theorem getElem?_eq_getD {α : Type _} {l : List α} {i : ℕ} (h : i < l.length) (d : α) :
    l[i]? = some (l.getD i d) := by
  simp [List.getD, List.getElem?_eq_getElem h]

theorem map_getD_range {α : Type _} (l : List α) (d : α) :
    (List.range l.length).map (fun i => l.getD i d) = l := by
  apply List.ext_getElem (by simp)
  intro i h1 h2
  simp [List.getD, List.getElem?_eq_getElem h2]

theorem foldl_fixed {α β : Type _} {f : β → α → β} (l : List α)
    (h : ∀ b x, x ∈ l → f b x = b) : ∀ b, l.foldl f b = b := by
  induction l with
  | nil => simp
  | cons x xs ih =>
    intro b
    rw [List.foldl_cons, h b x (by simp)]
    exact ih (fun b y hy => h b y (by simp [hy])) b

theorem optFoldlM_inv {α β : Type _} (Inv : β → Prop) (l : List α)
    (g : β → α → Option β) (f : β → α → β)
    (hstep : ∀ b x, x ∈ l → Inv b → g b x = some (f b x))
    (hpres : ∀ b x, x ∈ l → Inv b → Inv (f b x)) :
    ∀ init, Inv init → l.foldlM g init = some (l.foldl f init) := by
  induction l with
  | nil => intro init _; rfl
  | cons x xs ih =>
    intro init hinit
    rw [List.foldlM_cons, hstep init x (by simp) hinit]
    show xs.foldlM g (f init x) = _
    rw [ih (fun b y hy => hstep b y (by simp [hy]))
      (fun b y hy => hpres b y (by simp [hy])) (f init x)
      (hpres init x (by simp) hinit), List.foldl_cons]

theorem mapOpt_eq {α β : Type _} (l : List α) (g : α → Option β) (f : α → β)
    (h : ∀ x ∈ l, g x = some (f x)) : mapOpt g l = some (l.map f) := by
  induction l with
  | nil => rfl
  | cons x xs ih =>
    rw [mapOpt, h x (by simp), ih (fun y hy => h y (by simp [hy]))]
    rfl

theorem excFoldlM_ok {α β : Type _} (l : List α) (g : β → α → Except String β)
    (f : β → α → β) (h : ∀ b x, x ∈ l → g b x = .ok (f b x)) :
    ∀ init, l.foldlM g init = .ok (l.foldl f init) := by
  induction l with
  | nil => intro init; rfl
  | cons x xs ih =>
    intro init
    rw [List.foldlM_cons, h init x (by simp)]
    show xs.foldlM g (f init x) = _
    rw [ih (fun b y hy => h b y (by simp [hy])) (f init x), List.foldl_cons]

theorem excFoldlM_error {α β : Type _} (l : List α) (g : β → α → Except String β)
    (x : α) (hx : x ∈ l) (hfail : ∀ b, ∃ e, g b x = .error e) :
    ∀ init, ∃ e, l.foldlM g init = .error e := by
  induction l with
  | nil => simp at hx
  | cons y ys ih =>
    intro init
    rcases List.mem_cons.mp hx with rfl | hmem
    · obtain ⟨e, he⟩ := hfail init
      exact ⟨e, by rw [List.foldlM_cons, he]; rfl⟩
    · cases hg : g init y with
      | error e => exact ⟨e, by rw [List.foldlM_cons, hg]; rfl⟩
      | ok b' =>
        obtain ⟨e, he⟩ := ih hmem b'
        exact ⟨e, by rw [List.foldlM_cons, hg]; exact he⟩

/-! ## Claim theorems -/

set_option maxRecDepth 1000000 in
/-- **C1** (code bug): the spec's SM-1 scenario — points `(0,0,0),(2,0,0)`,
radius 5 (larger than the bounding diagonal 2), one iteration — does not
produce the centroid `(1,0,0)` for both points, contradicting the spec's
large-radius fixed-point property.  The kernel's flattened-index guard lets
out-of-range neighbor cells alias back into range, so the same cell is
gathered repeatedly and neighbors are double-counted: the code emits
`(7/4,0,0)` and `(2/9,0,0)`. -/
theorem C1_smooth_large_radius_not_centroid :
    point_cloud_smooth [0, 0, 0, 2, 0, 0] 5 1 = .ok [7/4, 0, 0, 2/9, 0, 0] ∧
    point_cloud_smooth [0, 0, 0, 2, 0, 0] 5 1 ≠ .ok [1, 0, 0, 1, 0, 0] := by
  exact ⟨by decide, by decide⟩

set_option maxRecDepth 1000000 in
/-- **C6** (counterexample): with `N = 1 > 0` and `voxel_size = NaN`, the
binary downsample program writes `u32 0` but exits with status 1, not 0:
`NaN <= 0` is false, so validation does not catch NaN; the kernel raises
and the handler exits non-zero. -/
theorem C6_counterexample :
    voxel_downsample_main 1 .nan ⟨.fin 0, .fin 1, .fin 0, .fin 1, .fin 0, .fin 1⟩
      [.fin 0, .fin 0, .fin 0] = ⟨some 0, 1⟩ ∧
    voxel_downsample_main 1 .nan ⟨.fin 0, .fin 1, .fin 0, .fin 1, .fin 0, .fin 1⟩
      [.fin 0, .fin 0, .fin 0] ≠ ⟨some 0, 0⟩ := by
  exact ⟨by decide, by decide⟩

/-- **C6** (amended): for `N > 0` within the allocation cap and a complete
payload, a zero or negative (including `-Inf`) `voxel_size` writes `u32 0`
and exits 0, while a NaN or `+Inf` `voxel_size` passes the `<= 0` check,
makes the kernel raise, and the program writes `u32 0` but exits 1. -/
theorem C6_amended (N : ℕ) (vs : PyF) (gb : GBounds) (pts : List PyF)
    (hN : 0 < N) (hmax : N ≤ MAX_POINTS) (hlen : pts.length = 3 * N) :
    (vs.le0 = true → voxel_downsample_main N vs gb pts = ⟨some 0, 0⟩) ∧
    (vs = .nan ∨ vs = .inf → voxel_downsample_main N vs gb pts = ⟨some 0, 1⟩) := by
  constructor
  · intro h
    simp [voxel_downsample_main, h]
  · intro h
    have hle : vs.le0 = false := by rcases h with rfl | rfl <;> rfl
    have hnz : N ≠ 0 := by omega
    have h1 : ¬ MAX_POINTS < N := by omega
    have h2 : ¬ 2000000000 < N * 3 * 4 := by
      unfold MAX_POINTS at hmax; omega
    have hne : pts ≠ [] := by
      intro he
      rw [he] at hlen
      simp at hlen
      omega
    have hmod : pts.length % 3 = 0 := by omega
    have hker : voxel_downsample pts vs gb = .error "Invalid voxel_size" := by
      rcases h with rfl | rfl <;>
        simp [voxel_downsample, hne, hmod, PyF.le0, PyF.isnan, PyF.isinf]
    simp [voxel_downsample_main, hnz, hle, h1, h2, hker]

/-- **C6** (witness for the amended theorem): concrete instances of both
branches at `N = 1`. -/
theorem C6_amended_witness :
    (voxel_downsample_main 1 (.fin 0) ⟨.fin 0, .fin 1, .fin 0, .fin 1, .fin 0, .fin 1⟩
      [.fin 0, .fin 0, .fin 0] = ⟨some 0, 0⟩) ∧
    (voxel_downsample_main 1 .inf ⟨.fin 0, .fin 1, .fin 0, .fin 1, .fin 0, .fin 1⟩
      [.fin 0, .fin 0, .fin 0] = ⟨some 0, 1⟩) :=
  ⟨(C6_amended 1 (.fin 0) _ _ (by decide) (by decide) (by decide)).1 (by decide),
   (C6_amended 1 .inf _ _ (by decide) (by decide) (by decide)).2 (Or.inr rfl)⟩

set_option maxRecDepth 1000000 in
/-- **C7** (counterexample): the two downsample kernels disagree on a point
below the minimum bound, so "the downsample kernel" does not uniformly use
floor semantics.  For points `(-1/2,1/2,1/2)` and `(1/2,1/2,1/2)` with
`voxel_size 1` and min bound 0: the legacy JSON kernel truncates
`-1/2` to index `0`, merging both points into one voxel (`M = 1`), while
the binary kernel floors it to `-1`, keeping them apart (`M = 2`). -/
theorem C7_counterexample :
    voxel_downsample_legacy
      [.fin (-1/2), .fin (1/2), .fin (1/2), .fin (1/2), .fin (1/2), .fin (1/2)]
      (.fin 1) ⟨.fin 0, .fin 1, .fin 0, .fin 1, .fin 0, .fin 1⟩ =
      .ok ([.fin 0, .fin (1/2), .fin (1/2)], 1) ∧
    voxel_downsample
      [.fin (-1/2), .fin (1/2), .fin (1/2), .fin (1/2), .fin (1/2), .fin (1/2)]
      (.fin 1) ⟨.fin 0, .fin 1, .fin 0, .fin 1, .fin 0, .fin 1⟩ =
      .ok ([.fin (-1/2), .fin (1/2), .fin (1/2), .fin (1/2), .fin (1/2), .fin (1/2)], 2) ∧
    dsAxisLegacy (.fin 0) (.fin 1) (.fin (-1/2)) = .ok 0 ∧
    dsAxis (.fin 0) (.fin 1) (.fin (-1/2)) = .ok (-1) := by
  exact ⟨by decide, by decide, by decide, by decide⟩

/-- **C7** (amended): the binary-protocol downsample kernel's per-axis voxel
coordinate is the mathematical floor `⌊(c - min) / s⌋`, and a coordinate
below the min bound receives a negative index; the legacy JSON kernel
instead truncates toward zero (see the counterexample). -/
theorem C7_amended (c mn s : ℚ) (hs : 0 < s) :
    dsAxis (.fin mn) (.fin s⁻¹) (.fin c) = .ok ⌊(c - mn) / s⌋ ∧
    (c < mn → ∀ v : ℤ, dsAxis (.fin mn) (.fin s⁻¹) (.fin c) = .ok v → v < 0) := by
  have h1 : dsAxis (.fin mn) (.fin s⁻¹) (.fin c) = .ok ⌊(c - mn) / s⌋ := by
    show Except.ok (ratFloor ((c - mn) * s⁻¹)) = _
    rw [ratFloor_eq, div_eq_mul_inv]
  refine ⟨h1, fun hc v hv => ?_⟩
  rw [h1] at hv
  have hv' : v = ⌊(c - mn) / s⌋ := by
    cases hv
    rfl
  have hq : (c - mn) / s < 0 :=
    div_neg_of_neg_of_pos (by linarith) hs
  have := Int.floor_le ((c - mn) / s)
  rw [hv']
  by_contra hnn
  push_neg at hnn
  have : (0 : ℚ) ≤ (⌊(c - mn) / s⌋ : ℚ) := by exact_mod_cast hnn
  linarith

/-- **C7** (witness for the amended theorem): at `c = -1/2`, `min = 0`,
`s = 1` the binary kernel's index is `⌊-1/2⌋ = -1 < 0`. -/
theorem C7_amended_witness :
    dsAxis (.fin 0) (.fin 1⁻¹) (.fin (-1/2)) = .ok ⌊((-1/2 : ℚ) - 0) / 1⌋ ∧
    ((-1/2 : ℚ) < 0 → ∀ v : ℤ,
      dsAxis (.fin 0) (.fin 1⁻¹) (.fin (-1/2)) = .ok v → v < 0) :=
  C7_amended (-1/2) 0 1 (by norm_num)

set_option maxRecDepth 1000000 in
/-- **C4** (counterexample): the code computes the bounding box once, before
the iteration loop; a variant that recomputes it every iteration (as the
spec describes) diverges from the code at the second iteration on points
`(0,0,0),(2,0,0)` with radius 5: the code keeps grid origin `min_x = 0`
while the recomputing variant uses the moved minimum `2/9`, changing the
aliasing pattern of the 27-cell gather. -/
theorem C4_counterexample :
    point_cloud_smooth [0, 0, 0, 2, 0, 0] 5 2 =
      .ok [127/324, 0, 0, 128/81, 0, 0] ∧
    point_cloud_smooth_respec [0, 0, 0, 2, 0, 0] 5 2 =
      .ok [127/324, 0, 0, 449/288, 0, 0] ∧
    point_cloud_smooth [0, 0, 0, 2, 0, 0] 5 2 ≠
      point_cloud_smooth_respec [0, 0, 0, 2, 0, 0] 5 2 := by
  exact ⟨by decide, by decide, by decide⟩

/-- **C4** (amended): the bounding box — and the grid constants derived from
it — is computed once from the input positions and reused by every
iteration: running `k + 1` iterations equals running `k` iterations and
then one more `smoothIter` with the constants of the *original* input's
bounding box, even though the points have moved. -/
theorem C4_amended (points : List ℚ) (r : ℚ) (k : ℤ) (t0 : Pt) (rest : List Pt)
    (outk : List ℚ) (hne : points ≠ []) (hmod : points.length % 3 = 0)
    (hr : 0 < r) (hk : 0 < k) (ht : toTriples points = t0 :: rest)
    (hout : point_cloud_smooth points r k = .ok outk) :
    point_cloud_smooth points r (k + 1) =
      .ok (flattenPts (smoothIter (mkCtx (computeBBox t0 rest) r) (toTriples outk))) := by
  have g2 : ¬ r ≤ 0 := not_le.mpr hr
  have g3 : ¬ k ≤ 0 := not_le.mpr hk
  have g4 : ¬ k + 1 ≤ 0 := by omega
  rw [point_cloud_smooth] at hout
  rw [point_cloud_smooth]
  simp only [hne, hmod, ht, if_neg g2, if_neg g3, if_neg g4, decide_False,
    Bool.false_or, bne_self_eq_false, Bool.false_eq_true, if_false] at hout ⊢
  have hkk : (k + 1).toNat = k.toNat + 1 := by omega
  rw [hkk, Function.iterate_succ_apply']
  rw [← Except.ok.inj hout, toTriples_flattenPts]

set_option maxRecDepth 1000000 in
/-- **C4** (witness for the amended theorem): the SM-1 input at `k = 1`. -/
theorem C4_amended_witness :
    point_cloud_smooth [0, 0, 0, 2, 0, 0] 5 (1 + 1) =
      .ok (flattenPts (smoothIter (mkCtx (computeBBox ⟨0, 0, 0⟩ [⟨2, 0, 0⟩]) 5)
        (toTriples [7/4, 0, 0, 2/9, 0, 0]))) :=
  C4_amended [0, 0, 0, 2, 0, 0] 5 1 ⟨0, 0, 0⟩ [⟨2, 0, 0⟩] [7/4, 0, 0, 2/9, 0, 0]
    (by decide) (by decide) (by decide) (by decide) (by decide) (by decide)

theorem smoothIter_length (ctx : SmoothCtx) (ts : List Pt) :
    (smoothIter ctx ts).length = ts.length := by
  simp [smoothIter]

theorem smoothIter_iterate_length (ctx : SmoothCtx) :
    ∀ (k : ℕ) (ts : List Pt), ((smoothIter ctx)^[k] ts).length = ts.length := by
  intro k
  induction k with
  | zero => intro ts; rfl
  | succ k ih =>
    intro ts
    rw [Function.iterate_succ_apply, ih, smoothIter_length]

/-- **C8**: on a valid smoothing input — nonempty flat list whose length is
a multiple of 3, positive radius, positive iteration count — the kernel
succeeds and the output flat list has exactly the input's length, for any
iteration count. -/
theorem C8_smooth_length_preserved (points : List ℚ) (r : ℚ) (k : ℤ)
    (hne : points ≠ []) (hmod : points.length % 3 = 0) (hr : 0 < r) (hk : 0 < k) :
    ∃ out, point_cloud_smooth points r k = .ok out ∧ out.length = points.length := by
  have g2 : ¬ r ≤ 0 := not_le.mpr hr
  have g3 : ¬ k ≤ 0 := not_le.mpr hk
  rw [point_cloud_smooth]
  simp only [hne, hmod, if_neg g2, if_neg g3, decide_False, Bool.false_or,
    bne_self_eq_false, Bool.false_eq_true, if_false]
  cases ht : toTriples points with
  | nil =>
    exfalso
    have h1 : (toTriples points).length = points.length / 3 := toTriples_length points
    have h2 : points.length ≠ 0 := fun h => hne (List.length_eq_zero.mp h)
    rw [ht] at h1
    simp at h1
    omega
  | cons t0 rest =>
    refine ⟨_, rfl, ?_⟩
    rw [flattenPts_length, smoothIter_iterate_length]
    have h1 : (toTriples points).length = points.length / 3 := toTriples_length points
    rw [ht] at h1
    rw [h1]
    omega

/-- **C8** (witness): the SM-1 input. -/
theorem C8_smooth_length_preserved_witness :
    ∃ out, point_cloud_smooth [0, 0, 0, 2, 0, 0] 5 1 = .ok out ∧
      out.length = ([0, 0, 0, 2, 0, 0] : List ℚ).length :=
  C8_smooth_length_preserved [0, 0, 0, 2, 0, 0] 5 1
    (by decide) (by decide) (by decide) (by decide)

theorem populate_mem (ctx : SmoothCtx) (ts : List Pt) :
    ∀ idx j, j ∈ (populate ctx ts).getD idx [] → j < ts.length := by
  have aux : ∀ (l : List ℕ) (g : List (List ℕ)),
      (∀ i ∈ l, i < ts.length) →
      (∀ idx j, j ∈ g.getD idx [] → j < ts.length) →
      ∀ idx j,
        j ∈ (l.foldl (fun g i =>
          let p := ts.getD i default
          let gi := gridIndexAt ctx p.x p.y p.z
          if 0 ≤ gi ∧ gi < ctx.gsize then g.set gi.toNat (g.getD gi.toNat [] ++ [i])
          else g) g).getD idx [] → j < ts.length := by
    intro l
    induction l with
    | nil => intro g _ hg idx j hj; exact hg idx j hj
    | cons hd tl ih =>
      intro g hl hg idx j hj
      rw [List.foldl_cons] at hj
      refine ih _ (fun i' hi' => hl i' (List.mem_cons_of_mem _ hi')) ?_ idx j hj
      intro idx' j' hj'
      simp only at hj'
      split at hj'
      · rw [getD_set] at hj'
        split at hj'
        · rcases List.mem_append.mp hj' with h | h
          · exact hg _ _ h
          · have hjh : j' = hd := by simpa using h
            subst hjh
            exact hl j' (List.mem_cons_self _ _)
        · exact hg _ _ hj'
      · exact hg _ _ hj'
  intro idx j hj
  refine aux (List.range ts.length) _ (fun i hi => List.mem_range.mp hi) ?_ idx j hj
  intro idx' j' hj'
  rw [getD_replicate] at hj'
  split at hj' <;> simp at hj'

theorem smoothIter_id (ctx : SmoothCtx) (ts : List Pt)
    (hfar : ∀ i j : ℕ, i < ts.length → j < ts.length → i ≠ j →
      ctx.r2 < sqDist (ts.getD i default) (ts.getD j default)) :
    smoothIter ctx ts = ts := by
  have hgrid := populate_mem ctx ts
  have hpt : ∀ i, i < ts.length →
      gatherPoint ctx (populate ctx ts) ts i = ts.getD i default := by
    intro i hi
    have hacc : gatherAcc ctx (populate ctx ts) ts i (ts.getD i default).x
        (ts.getD i default).y (ts.getD i default).z = (⟨0, 0, 0, 0⟩ : GAcc) := by
      rw [gatherAcc]
      apply foldl_fixed
      intro a dx _
      apply foldl_fixed
      intro a dy _
      apply foldl_fixed
      intro a dz _
      rw [offStep]
      split
      · apply foldl_fixed
        intro b j hj
        have hjlt := hgrid _ _ hj
        rw [cellStep]
        rcases eq_or_ne j i with rfl | hne
        · simp
        · rw [if_neg hne]
          have hd := hfar i j hi hjlt (Ne.symm hne)
          rw [sqDist] at hd
          simp only
          rw [if_neg (not_le.mpr hd)]
      · rfl
    rw [gatherPoint]
    simp only [hacc]
    rfl
  rw [smoothIter]
  calc (List.range ts.length).map (gatherPoint ctx (populate ctx ts) ts)
      = (List.range ts.length).map (fun i => ts.getD i default) := by
        apply List.map_congr_left
        intro i hi
        exact hpt i (List.mem_range.mp hi)
    _ = ts := map_getD_range ts default

theorem smoothIter_iterate_id (ctx : SmoothCtx) (ts : List Pt)
    (hfar : ∀ i j : ℕ, i < ts.length → j < ts.length → i ≠ j →
      ctx.r2 < sqDist (ts.getD i default) (ts.getD j default)) :
    ∀ k : ℕ, (smoothIter ctx)^[k] ts = ts := by
  intro k
  induction k with
  | zero => rfl
  | succ k ih => rw [Function.iterate_succ_apply, smoothIter_id ctx ts hfar, ih]

/-- **C9**: when every pair of distinct point indices is at squared distance
strictly greater than `r²` (i.e. the minimum pairwise distance exceeds the
radius), the smoothing kernel returns its input unchanged for any positive
iteration count: no neighbor ever passes the radius test, so every gather
leaves its point untouched. -/
theorem C9_smooth_identity_far_points (points : List ℚ) (r : ℚ) (k : ℤ)
    (hmod : points.length % 3 = 0) (hr : 0 < r) (hk : 0 < k)
    (hfar : ∀ i j : ℕ, i < (toTriples points).length → j < (toTriples points).length →
      i ≠ j → r * r < sqDist ((toTriples points).getD i default)
        ((toTriples points).getD j default)) :
    point_cloud_smooth points r k = .ok points := by
  have g2 : ¬ r ≤ 0 := not_le.mpr hr
  have g3 : ¬ k ≤ 0 := not_le.mpr hk
  rw [point_cloud_smooth]
  by_cases hpe : points = []
  · simp [hpe]
  · simp only [hpe, hmod, if_neg g2, if_neg g3, decide_False, Bool.false_or,
      bne_self_eq_false, Bool.false_eq_true, if_false]
    cases ht : toTriples points with
    | nil =>
      exfalso
      have hft := flattenPts_toTriples points hmod
      rw [ht] at hft
      simp [flattenPts] at hft
      exact hpe hft
    | cons t0 rest =>
      have hr2 : (mkCtx (computeBBox t0 rest) r).r2 = r * r := rfl
      have hfar' : ∀ i j : ℕ, i < (t0 :: rest).length → j < (t0 :: rest).length →
          i ≠ j → (mkCtx (computeBBox t0 rest) r).r2 <
            sqDist ((t0 :: rest).getD i default) ((t0 :: rest).getD j default) := by
        rw [hr2, ← ht]
        exact hfar
      show Except.ok (flattenPts ((smoothIter (mkCtx (computeBBox t0 rest) r))^[k.toNat]
        (t0 :: rest))) = Except.ok points
      rw [smoothIter_iterate_id _ _ hfar', ← ht, flattenPts_toTriples points hmod]

/-- **C9** (witness): the spec's SM-2 scenario — points `(0,0,0),(10,0,0)`,
radius 1, five iterations — is returned unchanged. -/
theorem C9_smooth_identity_far_points_witness :
    point_cloud_smooth [0, 0, 0, 10, 0, 0] 1 5 = .ok [0, 0, 0, 10, 0, 0] :=
  C9_smooth_identity_far_points [0, 0, 0, 10, 0, 0] 1 5
    (by decide) (by decide) (by decide)
    (by
      intro i j hi hj hne
      simp [toTriples] at hi hj
      interval_cases i <;> interval_cases j <;> simp_all <;> decide)

theorem populate_length (ctx : SmoothCtx) (ts : List Pt) :
    (populate ctx ts).length = ctx.gsize.toNat := by
  have aux : ∀ (l : List ℕ) (g : List (List ℕ)),
      (l.foldl (fun g i =>
        let p := ts.getD i default
        let gi := gridIndexAt ctx p.x p.y p.z
        if 0 ≤ gi ∧ gi < ctx.gsize then g.set gi.toNat (g.getD gi.toNat [] ++ [i])
        else g) g).length = g.length := by
    intro l
    induction l with
    | nil => intro g; rfl
    | cons hd tl ih =>
      intro g
      rw [List.foldl_cons, ih]
      simp only
      split <;> simp
  rw [populate, aux, List.length_replicate]

theorem cellStepC_eq (r2 : ℚ) (temp : List Pt) (i : ℕ) (x y z : ℚ) (b : GAcc)
    (j : ℕ) (hj : j < temp.length) :
    cellStepC r2 temp i x y z b j = some (cellStep r2 temp i x y z b j) := by
  rw [cellStepC, cellStep, getElem?_eq_getD hj default]
  split <;> rfl

theorem offStepC_eq (ctx : SmoothCtx) (grid : List (List ℕ)) (temp : List Pt)
    (i : ℕ) (x y z : ℚ) (b : GAcc) (dx dy dz : ℤ)
    (hglen : grid.length = ctx.gsize.toNat)
    (hcells : ∀ idx j, j ∈ grid.getD idx [] → j < temp.length) :
    offStepC ctx grid temp i x y z b dx dy dz =
      some (offStep ctx grid temp i x y z b dx dy dz) := by
  simp only [offStepC, offStep]
  split
  · next h =>
    have hlt : (gridIndexAt ctx (x + dx * ctx.cell) (y + dy * ctx.cell)
        (z + dz * ctx.cell)).toNat < grid.length := by
      rw [hglen]; omega
    rw [getElem?_eq_getD hlt []]
    exact optFoldlM_inv (fun _ => True) _ _ _
      (fun b' j hj _ => cellStepC_eq _ _ _ _ _ _ _ _ (hcells _ _ hj))
      (fun _ _ _ _ => trivial) b trivial
  · rfl

theorem gatherAccC_eq (ctx : SmoothCtx) (grid : List (List ℕ)) (temp : List Pt)
    (i : ℕ) (x y z : ℚ)
    (hglen : grid.length = ctx.gsize.toNat)
    (hcells : ∀ idx j, j ∈ grid.getD idx [] → j < temp.length) :
    gatherAccC ctx grid temp i x y z = some (gatherAcc ctx grid temp i x y z) := by
  rw [gatherAccC, gatherAcc]
  refine optFoldlM_inv (fun _ => True) _ _ _ ?_ (fun _ _ _ _ => trivial) _ trivial
  intro a dx _ _
  refine optFoldlM_inv (fun _ => True) _ _ _ ?_ (fun _ _ _ _ => trivial) _ trivial
  intro a' dy _ _
  refine optFoldlM_inv (fun _ => True) _ _ _ ?_ (fun _ _ _ _ => trivial) _ trivial
  intro a'' dz _ _
  exact offStepC_eq ctx grid temp i x y z a'' dx dy dz hglen hcells

theorem gatherPointC_eq (ctx : SmoothCtx) (grid : List (List ℕ)) (temp : List Pt)
    (i : ℕ) (hi : i < temp.length)
    (hglen : grid.length = ctx.gsize.toNat)
    (hcells : ∀ idx j, j ∈ grid.getD idx [] → j < temp.length) :
    gatherPointC ctx grid temp i = some (gatherPoint ctx grid temp i) := by
  rw [gatherPointC, gatherPoint, getElem?_eq_getD hi default]
  show (gatherAccC ctx grid temp i _ _ _).bind _ = _
  rw [gatherAccC_eq ctx grid temp i _ _ _ hglen hcells]
  rfl

theorem populateC_eq (ctx : SmoothCtx) (temp : List Pt) :
    populateC ctx temp = some (populate ctx temp) := by
  rw [populateC, populate]
  refine optFoldlM_inv (fun g => g.length = ctx.gsize.toNat) _ _ _ ?_ ?_ _
    (List.length_replicate _ _)
  · intro g i hi hg
    have hilt : i < temp.length := List.mem_range.mp hi
    rw [getElem?_eq_getD hilt default]
    show (if 0 ≤ gridIndexAt ctx (temp.getD i default).x (temp.getD i default).y
          (temp.getD i default).z ∧
          gridIndexAt ctx (temp.getD i default).x (temp.getD i default).y
            (temp.getD i default).z < ctx.gsize then _ else _) = _
    split
    · next h =>
      have hlt : (gridIndexAt ctx (temp.getD i default).x (temp.getD i default).y
          (temp.getD i default).z).toNat < g.length := by
        rw [hg]; omega
      rw [getElem?_eq_getD hlt []]
      simp only [if_pos h]
    · next h => simp only [if_neg h]
  · intro g i _ _
    simp only
    split <;> simp_all

theorem smoothIterC_eq (ctx : SmoothCtx) (ts : List Pt) :
    smoothIterC ctx ts = some (smoothIter ctx ts) := by
  rw [smoothIterC, populateC_eq]
  show mapOpt (gatherPointC ctx (populate ctx ts) ts) (List.range ts.length) = _
  rw [mapOpt_eq _ _ (gatherPoint ctx (populate ctx ts) ts) (fun i hi =>
    gatherPointC_eq ctx (populate ctx ts) ts i (List.mem_range.mp hi)
      (populate_length ctx ts) (populate_mem ctx ts))]
  rw [smoothIter]

theorem smoothCoreC_eq (ctx : SmoothCtx) :
    ∀ (k : ℕ) (ts : List Pt), smoothCoreC ctx k ts = some ((smoothIter ctx)^[k] ts) := by
  intro k
  induction k with
  | zero => intro ts; rfl
  | succ k ih =>
    intro ts
    show (smoothIterC ctx ts).bind (fun ps' => smoothCoreC ctx k ps') = _
    rw [smoothIterC_eq]
    show smoothCoreC ctx k (smoothIter ctx ts) = _
    rw [ih, Function.iterate_succ_apply]

/-- **C10**: the smoothing kernel never makes an out-of-bounds container
access: the bounds-checked variant — in which every grid read, every grid
append, and every point read at an index taken from a grid cell returns
`none` when out of bounds, and `none` propagates — computes `some` of the
kernel's result on *every* input.  The `0 <= grid_index < grid_size` guard
is sufficient because the grid has exactly `grid_size` cells and the
populate loop stores only indices below the point count, even when a
shifted neighbor coordinate falls outside the grid and its per-axis cell
coordinates are negative or past the last cell. -/
theorem C10_smooth_no_index_error (points : List ℚ) (smoothing_radius : ℚ)
    (iterations : ℤ) :
    point_cloud_smooth_checked points smoothing_radius iterations =
      some (point_cloud_smooth points smoothing_radius iterations) := by
  rw [point_cloud_smooth_checked, point_cloud_smooth]
  by_cases h1 : (points = [] || points.length % 3 != 0) = true
  · rw [if_pos h1, if_pos h1]
  · rw [if_neg h1, if_neg h1]
    by_cases h2 : smoothing_radius ≤ 0
    · rw [if_pos h2, if_pos h2]
    · rw [if_neg h2, if_neg h2]
      by_cases h3 : iterations ≤ 0
      · rw [if_pos h3, if_pos h3]
      · rw [if_neg h3, if_neg h3]
        cases ht : toTriples points with
        | nil => rfl
        | cons t0 rest =>
          show (smoothCoreC (mkCtx (computeBBox t0 rest) smoothing_radius)
              iterations.toNat (t0 :: rest)).bind _ = _
          rw [smoothCoreC_eq]
          rfl

theorem exc_bind_ok {α β : Type _} (a : α) (f : α → Except String β) :
    (Except.ok a >>= f) = f a := rfl

theorem exc_bind_error {α β : Type _} (e : String) (f : α → Except String β) :
    ((Except.error e : Except String α) >>= f) = .error e := rfl

theorem natLor_two_pow_add {n : ℕ} (a b : ℕ) (hb : b < 2 ^ n) :
    (2 ^ n * a) ||| b = 2 ^ n * a + b := by
  apply Nat.eq_of_testBit_eq
  intro i
  rw [Nat.testBit_lor, Nat.testBit_mul_pow_two_add a hb i, Nat.testBit_mul_pow_two]
  by_cases h : i < n
  · have : ¬ i ≥ n := by omega
    simp [h, this]
  · have hbi : b.testBit i = false :=
      Nat.testBit_lt_two_pow
        (lt_of_lt_of_le hb (Nat.pow_le_pow_right (by norm_num) (Nat.le_of_not_lt h)))
    have : i ≥ n := Nat.le_of_not_lt h
    simp [h, this, hbi]

theorem natKey_eq (a b c : ℕ) (hb : b < 2 ^ 16) (hc : c < 2 ^ 16) :
    ((a * 2 ^ 32) ||| (b * 2 ^ 16)) ||| c = 2 ^ 32 * a + 2 ^ 16 * b + c := by
  have h1 : b * 2 ^ 16 < 2 ^ 32 := by
    norm_num at hb ⊢
    omega
  rw [Nat.mul_comm a (2 ^ 32)]
  rw [natLor_two_pow_add a (b * 2 ^ 16) h1]
  rw [Nat.mul_comm b (2 ^ 16)]
  rw [show 2 ^ 32 * a + 2 ^ 16 * b = 2 ^ 16 * (2 ^ 16 * a + b) by ring]
  rw [natLor_two_pow_add _ c hc]

theorem voxelKey_eq_nonneg (vx vy vz : ℤ) (hx : 0 ≤ vx) (hy0 : 0 ≤ vy)
    (hy1 : vy < 2 ^ 16) (hz0 : 0 ≤ vz) (hz1 : vz < 2 ^ 16) :
    voxelKey vx vy vz = 2 ^ 32 * vx + 2 ^ 16 * vy + vz := by
  lift vx to ℕ using hx with a
  lift vy to ℕ using hy0 with b
  lift vz to ℕ using hz0 with c
  have hb : b < 2 ^ 16 := by exact_mod_cast hy1
  have hc : c < 2 ^ 16 := by exact_mod_cast hz1
  rw [voxelKey, pyShiftL, pyShiftL]
  have e1 : (a : ℤ) * 2 ^ 32 = ((a * 2 ^ 32 : ℕ) : ℤ) := by push_cast; ring
  have e2 : (b : ℤ) * 2 ^ 16 = ((b * 2 ^ 16 : ℕ) : ℤ) := by push_cast; ring
  rw [e1, e2]
  have e3 : Int.lor ((a * 2 ^ 32 : ℕ) : ℤ) ((b * 2 ^ 16 : ℕ) : ℤ) =
      (((a * 2 ^ 32) ||| (b * 2 ^ 16) : ℕ) : ℤ) := rfl
  rw [e3]
  have e4 : Int.lor ((((a * 2 ^ 32) ||| (b * 2 ^ 16) : ℕ)) : ℤ) ((c : ℕ) : ℤ) =
      ((((a * 2 ^ 32) ||| (b * 2 ^ 16)) ||| c : ℕ) : ℤ) := rfl
  rw [e4, natKey_eq a b c hb hc]
  push_cast
  ring

theorem voxelKey3_injOn (S : Finset (ℤ × ℤ × ℤ))
    (hS : ∀ v ∈ S, 0 ≤ v.1 ∧ v.1 ≤ 2 ^ 15 ∧ 0 ≤ v.2.1 ∧ v.2.1 ≤ 2 ^ 15 ∧
      0 ≤ v.2.2 ∧ v.2.2 ≤ 2 ^ 15) :
    Set.InjOn voxelKey3 (S : Set (ℤ × ℤ × ℤ)) := by
  rintro ⟨x1, y1, z1⟩ hv ⟨x2, y2, z2⟩ hw hk
  obtain ⟨a1, a2, a3, a4, a5, a6⟩ := hS _ hv
  obtain ⟨b1, b2, b3, b4, b5, b6⟩ := hS _ hw
  simp only at a1 a2 a3 a4 a5 a6 b1 b2 b3 b4 b5 b6
  rw [voxelKey3, voxelKey3] at hk
  simp only at hk
  rw [voxelKey_eq_nonneg x1 y1 z1 a1 a3 (by norm_num at a4 ⊢; omega) a5
      (by norm_num at a6 ⊢; omega),
    voxelKey_eq_nonneg x2 y2 z2 b1 b3 (by norm_num at b4 ⊢; omega) b5
      (by norm_num at b6 ⊢; omega)] at hk
  norm_num at hk a2 a4 a6 b2 b4 b6
  have hxyz : x1 = x2 ∧ y1 = y2 ∧ z1 = z2 := by omega
  rw [hxyz.1, hxyz.2.1, hxyz.2.2]

theorem exc_pure {α : Type _} (a : α) : (pure a : Except String α) = .ok a := rfl

theorem insertVox_keys (k : ℤ) (x y z : PyF) :
    ∀ m : List (ℤ × VAcc), mkeys (insertVox k x y z m) =
      if k ∈ mkeys m then mkeys m else mkeys m ++ [k] := by
  intro m
  induction m with
  | nil => simp [insertVox, mkeys]
  | cons e rest ih =>
    obtain ⟨k', a⟩ := e
    rw [insertVox]
    by_cases h : k' = k
    · subst h
      simp [mkeys]
    · rw [if_neg h]
      simp only [mkeys, List.map_cons] at ih ⊢
      rw [ih]
      by_cases hm : k ∈ List.map Prod.fst rest
      · simp [hm, Ne.symm h]
      · simp [hm, Ne.symm h]

theorem insertVox_length (k : ℤ) (x y z : PyF) :
    ∀ m : List (ℤ × VAcc), (insertVox k x y z m).length ≤ m.length + 1 := by
  intro m
  induction m with
  | nil => simp [insertVox]
  | cons e rest ih =>
    obtain ⟨k', a⟩ := e
    rw [insertVox]
    by_cases h : k' = k
    · simp [h]
    · rw [if_neg h]
      simp only [List.length_cons]
      omega

theorem insertVox_keys_nodup (k : ℤ) (x y z : PyF) (m : List (ℤ × VAcc))
    (h : (mkeys m).Nodup) : (mkeys (insertVox k x y z m)).Nodup := by
  rw [insertVox_keys]
  split
  · exact h
  · next hm =>
    rw [← List.concat_eq_append]
    exact h.concat hm

theorem insertVox_keys_toFinset (k : ℤ) (x y z : PyF) (m : List (ℤ × VAcc)) :
    (mkeys (insertVox k x y z m)).toFinset = insert k (mkeys m).toFinset := by
  rw [insertVox_keys]
  split
  · next hm => exact (Finset.insert_eq_self.mpr (List.mem_toFinset.mpr hm)).symm
  · ext a
    simp [or_comm]

theorem foldInsert_facts (key : Pt → ℤ) (fx fy fz : Pt → PyF) :
    ∀ (ts : List Pt) (m : List (ℤ × VAcc)), (mkeys m).Nodup →
      (mkeys (ts.foldl (fun m p => insertVox (key p) (fx p) (fy p) (fz p) m) m)).Nodup ∧
      (mkeys (ts.foldl (fun m p => insertVox (key p) (fx p) (fy p) (fz p) m) m)).toFinset =
        (mkeys m).toFinset ∪ (ts.map key).toFinset := by
  intro ts
  induction ts with
  | nil => intro m h; exact ⟨h, by simp⟩
  | cons p ts ih =>
    intro m h
    rw [List.foldl_cons]
    obtain ⟨h1, h2⟩ := ih (insertVox (key p) (fx p) (fy p) (fz p) m)
      (insertVox_keys_nodup _ _ _ _ _ h)
    refine ⟨h1, ?_⟩
    rw [h2, insertVox_keys_toFinset]
    ext a
    simp

theorem foldInsert_length_le (key : Pt → ℤ) (fx fy fz : Pt → PyF) :
    ∀ (ts : List Pt) (m : List (ℤ × VAcc)),
      (ts.foldl (fun m p => insertVox (key p) (fx p) (fy p) (fz p) m) m).length ≤
        m.length + ts.length := by
  intro ts
  induction ts with
  | nil => intro m; simp
  | cons p ts ih =>
    intro m
    rw [List.foldl_cons]
    have h1 := ih (insertVox (key p) (fx p) (fy p) (fz p) m)
    have h2 := insertVox_length (key p) (fx p) (fy p) (fz p) m
    simp only [List.length_cons]
    omega

theorem insertSet_nodup (t : ℤ × ℤ × ℤ) (s : List (ℤ × ℤ × ℤ)) (h : s.Nodup) :
    (insertSet t s).Nodup := by
  rw [insertSet]
  split
  · exact h
  · next hm =>
    rw [← List.concat_eq_append]
    exact h.concat hm

theorem insertSet_toFinset (t : ℤ × ℤ × ℤ) (s : List (ℤ × ℤ × ℤ)) :
    (insertSet t s).toFinset = insert t s.toFinset := by
  rw [insertSet]
  split
  · next hm => exact (Finset.insert_eq_self.mpr (List.mem_toFinset.mpr hm)).symm
  · ext a
    simp [or_comm]

theorem insertSet_length (t : ℤ × ℤ × ℤ) (s : List (ℤ × ℤ × ℤ)) :
    (insertSet t s).length ≤ s.length + 1 := by
  rw [insertSet]
  split <;> simp

theorem foldSet_facts (trip : Pt → ℤ × ℤ × ℤ) :
    ∀ (ts : List Pt) (s : List (ℤ × ℤ × ℤ)), s.Nodup →
      (ts.foldl (fun s p => insertSet (trip p) s) s).Nodup ∧
      (ts.foldl (fun s p => insertSet (trip p) s) s).toFinset =
        s.toFinset ∪ (ts.map trip).toFinset := by
  intro ts
  induction ts with
  | nil => intro s h; exact ⟨h, by simp⟩
  | cons p ts ih =>
    intro s h
    rw [List.foldl_cons]
    obtain ⟨h1, h2⟩ := ih (insertSet (trip p) s) (insertSet_nodup _ _ h)
    refine ⟨h1, ?_⟩
    rw [h2, insertSet_toFinset]
    ext a
    simp

theorem dsKey_fin (mnx mny mnz inv : ℚ) (p : Pt) :
    dsKey (.fin mnx) (.fin mny) (.fin mnz) (.fin inv) (finTriple p) =
      .ok (voxelKey3 (voxelTriple mnx mny mnz inv p)) := rfl

theorem dsFold_fin (mnx mny mnz inv : ℚ) (ts : List Pt) :
    dsFold (.fin mnx) (.fin mny) (.fin mnz) (.fin inv) (ts.map finTriple) =
      .ok (ts.foldl (fun m p => insertVox (voxelKey3 (voxelTriple mnx mny mnz inv p))
        (.fin p.x) (.fin p.y) (.fin p.z) m) []) := by
  have aux : ∀ (ts : List Pt) (m0 : List (ℤ × VAcc)),
      (ts.map finTriple).foldlM (fun m t => do
        let k ← dsKey (.fin mnx) (.fin mny) (.fin mnz) (.fin inv) t
        pure (insertVox k t.1 t.2.1 t.2.2 m)) m0 =
      .ok (ts.foldl (fun m p => insertVox (voxelKey3 (voxelTriple mnx mny mnz inv p))
        (.fin p.x) (.fin p.y) (.fin p.z) m) m0) := by
    intro ts
    induction ts with
    | nil => intro m0; rfl
    | cons p ts ih =>
      intro m0
      rw [List.map_cons, List.foldlM_cons]
      show ((dsKey (.fin mnx) (.fin mny) (.fin mnz) (.fin inv) (finTriple p)) >>=
        (fun k => pure (insertVox k (finTriple p).1 (finTriple p).2.1
          (finTriple p).2.2 m0))) >>= _ = _
      rw [dsKey_fin, exc_bind_ok, exc_pure, exc_bind_ok]
      rw [List.foldl_cons]
      exact ih _
  rw [dsFold]
  exact aux ts []

theorem dbgStep_fin (mnx mny mnz inv : ℚ) (s : List (ℤ × ℤ × ℤ)) (p : Pt) :
    dbgStep (.fin mnx) (.fin mny) (.fin mnz) (.fin inv) s (finTriple p) =
      .ok (insertSet (voxelTriple mnx mny mnz inv p) s) := rfl

theorem dbgFold_fin (mnx mny mnz inv : ℚ) :
    ∀ (ts : List Pt) (s0 : List (ℤ × ℤ × ℤ)),
      (ts.map finTriple).foldlM
        (dbgStep (.fin mnx) (.fin mny) (.fin mnz) (.fin inv)) s0 =
      .ok (ts.foldl (fun s p => insertSet (voxelTriple mnx mny mnz inv p) s) s0) := by
  intro ts
  induction ts with
  | nil => intro s0; rfl
  | cons p ts ih =>
    intro s0
    rw [List.map_cons, List.foldlM_cons, dbgStep_fin, exc_bind_ok, List.foldl_cons]
    exact ih _

theorem toTriplesF_map_fin : ∀ l : List ℚ,
    toTriplesF (l.map PyF.fin) = (toTriples l).map finTriple
  | [] => rfl
  | [x] => rfl
  | [x, y] => rfl
  | x :: y :: z :: rest => by
    simp only [List.map_cons, toTriplesF, toTriples, finTriple]
    rw [toTriplesF_map_fin rest]

theorem toTriplesF_append : ∀ (A B : List PyF), A.length % 3 = 0 →
    toTriplesF (A ++ B) = toTriplesF A ++ toTriplesF B
  | [], B, _ => rfl
  | [x], B, h => by simp at h
  | [x, y], B, h => by simp at h
  | x :: y :: z :: rest, B, h => by
    have hr : rest.length % 3 = 0 := by simp at h; omega
    simp only [List.cons_append, toTriplesF, List.append_eq]
    rw [toTriplesF_append rest B hr]

theorem voxel_downsample_fin (points : List ℚ) (s mnx mxx mny mxy mnz mxz : ℚ)
    (hs : 0 < s) (hne : points ≠ []) (hmod : points.length % 3 = 0) :
    voxel_downsample (points.map .fin) (.fin s)
      ⟨.fin mnx, .fin mxx, .fin mny, .fin mxy, .fin mnz, .fin mxz⟩ =
      .ok ((((toTriples points).foldl (fun m p =>
          insertVox (voxelKey3 (voxelTriple mnx mny mnz s⁻¹ p))
            (.fin p.x) (.fin p.y) (.fin p.z) m) []).map (fun e => vaccMean e.2)).flatten,
        ((toTriples points).foldl (fun m p =>
          insertVox (voxelKey3 (voxelTriple mnx mny mnz s⁻¹ p))
            (.fin p.x) (.fin p.y) (.fin p.z) m) []).length) := by
  rw [voxel_downsample]
  have g1 : ((points.map PyF.fin) = [] || (points.map PyF.fin).length % 3 != 0) = false := by
    simp [hne, hmod]
  have g2 : ((PyF.fin s).le0 || (PyF.fin s).isnan || (PyF.fin s).isinf) = false := by
    simp [PyF.le0, PyF.isnan, PyF.isinf, not_le.mpr hs]
  rw [g1, g2]
  simp only [Bool.false_eq_true, if_false]
  rw [show GBounds.hasNaN ⟨.fin mnx, .fin mxx, .fin mny, .fin mxy, .fin mnz, .fin mxz⟩ =
    false from rfl]
  simp only [Bool.false_eq_true, if_false]
  show (dsFold (.fin mnx) (.fin mny) (.fin mnz) ((PyF.fin s).rcp)
    (toTriplesF (points.map PyF.fin))) >>= _ = _
  rw [show (PyF.fin s).rcp = PyF.fin s⁻¹ from rfl, toTriplesF_map_fin points,
    dsFold_fin, exc_bind_ok]
  rfl

theorem toFinset_map_list {α β : Type _} [DecidableEq α] [DecidableEq β]
    (l : List α) (f : α → β) : (l.map f).toFinset = l.toFinset.image f := by
  induction l with
  | nil => simp
  | cons x xs ih => simp [ih]

theorem flatten3_length {α β : Type _} (l : List α) (f : α → List β)
    (h : ∀ x, (f x).length = 3) : ((l.map f).flatten).length = 3 * l.length := by
  induction l with
  | nil => simp
  | cons x xs ih =>
    simp only [List.map_cons, List.flatten_cons, List.length_append, ih, h x,
      List.length_cons]
    omega

set_option maxRecDepth 1000000 in
/-- **C2** (counterexample): two points in the distinct voxels `(0,0,-1)` and
`(-1,-1,-1)` — all per-axis indices within `[-2^15, 2^15]` — receive the
same packed key (`-1`, by two's-complement `or` with negative operands), so
the kernel emits `output_count 1` while the number of distinct voxel index
triples is 2. -/
theorem C2_counterexample :
    voxel_downsample
      [.fin (-1/2), .fin (-1/2), .fin (-1/2), .fin (-3/2), .fin (-1/2), .fin (-1/2)]
      (.fin 1) ⟨.fin 0, .fin 1, .fin 0, .fin 1, .fin 0, .fin 1⟩ =
      .ok ([.fin (-1), .fin (-1/2), .fin (-1/2)], 1) ∧
    ((toTriples [-1/2, -1/2, -1/2, -3/2, -1/2, -1/2]).map
      (voxelTriple 0 0 0 1⁻¹)).toFinset.card = 2 ∧
    (∀ p ∈ toTriples [-1/2, -1/2, -1/2, -3/2, -1/2, -1/2],
      -2 ^ 15 ≤ (voxelTriple 0 0 0 1⁻¹ p).1 ∧ (voxelTriple 0 0 0 1⁻¹ p).1 ≤ 2 ^ 15 ∧
      -2 ^ 15 ≤ (voxelTriple 0 0 0 1⁻¹ p).2.1 ∧ (voxelTriple 0 0 0 1⁻¹ p).2.1 ≤ 2 ^ 15 ∧
      -2 ^ 15 ≤ (voxelTriple 0 0 0 1⁻¹ p).2.2 ∧ (voxelTriple 0 0 0 1⁻¹ p).2.2 ≤ 2 ^ 15) ∧
    (1 : ℕ) ≠ 2 := by
  exact ⟨by decide, by decide, by decide, by decide⟩

/-- **C2** (amended): `M ≤ N` holds for every successful downsample run;
and when every per-axis voxel index lies in `[0, 2^15]` — nonnegative, so
the packed key is injective — `M` equals the number of distinct voxel index
triples.  (With negative indices the packed key collides; see the
counterexample.) -/
theorem C2_amended (points : List ℚ) (s mnx mxx mny mxy mnz mxz : ℚ)
    (hs : 0 < s) (hmod : points.length % 3 = 0) :
    (∀ out M, voxel_downsample (points.map .fin) (.fin s)
        ⟨.fin mnx, .fin mxx, .fin mny, .fin mxy, .fin mnz, .fin mxz⟩ = .ok (out, M) →
      M ≤ points.length / 3) ∧
    ((∀ p ∈ toTriples points,
        0 ≤ (voxelTriple mnx mny mnz s⁻¹ p).1 ∧ (voxelTriple mnx mny mnz s⁻¹ p).1 ≤ 2 ^ 15 ∧
        0 ≤ (voxelTriple mnx mny mnz s⁻¹ p).2.1 ∧ (voxelTriple mnx mny mnz s⁻¹ p).2.1 ≤ 2 ^ 15 ∧
        0 ≤ (voxelTriple mnx mny mnz s⁻¹ p).2.2 ∧ (voxelTriple mnx mny mnz s⁻¹ p).2.2 ≤ 2 ^ 15) →
      ∃ out, voxel_downsample (points.map .fin) (.fin s)
          ⟨.fin mnx, .fin mxx, .fin mny, .fin mxy, .fin mnz, .fin mxz⟩ =
        .ok (out, ((toTriples points).map (voxelTriple mnx mny mnz s⁻¹)).toFinset.card)) := by
  constructor
  · intro out M h
    by_cases hpe : points = []
    · subst hpe
      rw [show voxel_downsample (([] : List ℚ).map .fin) (.fin s)
          ⟨.fin mnx, .fin mxx, .fin mny, .fin mxy, .fin mnz, .fin mxz⟩ =
          .ok (([] : List PyF), 0) from rfl] at h
      have hM := congrArg Prod.snd (Except.ok.inj h)
      simp at hM
      omega
    · rw [voxel_downsample_fin points s mnx mxx mny mxy mnz mxz hs hpe hmod] at h
      have hM := congrArg Prod.snd (Except.ok.inj h)
      simp only at hM
      rw [← hM]
      have h1 := foldInsert_length_le (fun p => voxelKey3 (voxelTriple mnx mny mnz s⁻¹ p))
        (fun p => .fin p.x) (fun p => .fin p.y) (fun p => .fin p.z) (toTriples points) []
      have h2 := toTriples_length points
      simp only [List.length_nil] at h1
      omega
  · intro hidx
    by_cases hpe : points = []
    · subst hpe
      refine ⟨[], ?_⟩
      rw [show voxel_downsample (([] : List ℚ).map .fin) (.fin s)
          ⟨.fin mnx, .fin mxx, .fin mny, .fin mxy, .fin mnz, .fin mxz⟩ =
          .ok (([] : List PyF), 0) from rfl]
      norm_num [toTriples]
    · refine ⟨(((toTriples points).foldl (fun m p =>
          insertVox (voxelKey3 (voxelTriple mnx mny mnz s⁻¹ p))
            (.fin p.x) (.fin p.y) (.fin p.z) m) []).map (fun e => vaccMean e.2)).flatten, ?_⟩
      rw [voxel_downsample_fin points s mnx mxx mny mxy mnz mxz hs hpe hmod]
      have key := foldInsert_facts (fun p => voxelKey3 (voxelTriple mnx mny mnz s⁻¹ p))
        (fun p => .fin p.x) (fun p => .fin p.y) (fun p => .fin p.z) (toTriples points) []
        (by simp [mkeys])
      obtain ⟨hnodup, hset⟩ := key
      simp only [mkeys, List.map_nil, List.toFinset_nil, Finset.empty_union] at hset
      have hS : ∀ v ∈ ((toTriples points).map (voxelTriple mnx mny mnz s⁻¹)).toFinset,
          0 ≤ v.1 ∧ v.1 ≤ 2 ^ 15 ∧ 0 ≤ v.2.1 ∧ v.2.1 ≤ 2 ^ 15 ∧
          0 ≤ v.2.2 ∧ v.2.2 ≤ 2 ^ 15 := by
        intro v hv
        rw [List.mem_toFinset] at hv
        obtain ⟨p, hp, rfl⟩ := List.mem_map.mp hv
        exact hidx p hp
      have hmm : (toTriples points).map (fun p => voxelKey3 (voxelTriple mnx mny mnz s⁻¹ p)) =
          ((toTriples points).map (voxelTriple mnx mny mnz s⁻¹)).map voxelKey3 := by
        rw [List.map_map]
        rfl
      congr 1
      rw [Prod.mk.injEq]
      refine ⟨rfl, ?_⟩
      have hnodup' : (List.map Prod.fst ((toTriples points).foldl (fun m p =>
          insertVox (voxelKey3 (voxelTriple mnx mny mnz s⁻¹ p))
            (.fin p.x) (.fin p.y) (.fin p.z) m) [])).Nodup := by
        simpa [mkeys] using hnodup
      have hlen2 : ((toTriples points).foldl (fun m p =>
          insertVox (voxelKey3 (voxelTriple mnx mny mnz s⁻¹ p))
            (.fin p.x) (.fin p.y) (.fin p.z) m) []).length =
          (List.map Prod.fst ((toTriples points).foldl (fun m p =>
            insertVox (voxelKey3 (voxelTriple mnx mny mnz s⁻¹ p))
              (.fin p.x) (.fin p.y) (.fin p.z) m) [])).length := by
        simp
      rw [hlen2, ← List.toFinset_card_of_nodup hnodup', hset, hmm, toFinset_map_list]
      exact Finset.card_image_of_injOn (voxelKey3_injOn _ hS)

set_option maxRecDepth 1000000 in
/-- **C2** (witness for the amended theorem): the DS-1-style input — four
points in two voxels with nonnegative indices — where `M = 2` equals the
distinct-triple count and `M ≤ N = 4`. -/
theorem C2_amended_witness :
    (∀ out M, voxel_downsample
        (([0, 0, 0, 1/10, 0, 0, 10, 0, 0, 101/10, 0, 0] : List ℚ).map .fin)
        (.fin 1) ⟨.fin 0, .fin 11, .fin 0, .fin 1, .fin 0, .fin 1⟩ = .ok (out, M) →
      M ≤ ([0, 0, 0, 1/10, 0, 0, 10, 0, 0, 101/10, 0, 0] : List ℚ).length / 3) ∧
    ((∀ p ∈ toTriples [0, 0, 0, 1/10, 0, 0, 10, 0, 0, 101/10, 0, 0],
        0 ≤ (voxelTriple 0 0 0 1⁻¹ p).1 ∧ (voxelTriple 0 0 0 1⁻¹ p).1 ≤ 2 ^ 15 ∧
        0 ≤ (voxelTriple 0 0 0 1⁻¹ p).2.1 ∧ (voxelTriple 0 0 0 1⁻¹ p).2.1 ≤ 2 ^ 15 ∧
        0 ≤ (voxelTriple 0 0 0 1⁻¹ p).2.2 ∧ (voxelTriple 0 0 0 1⁻¹ p).2.2 ≤ 2 ^ 15) →
      ∃ out, voxel_downsample
          (([0, 0, 0, 1/10, 0, 0, 10, 0, 0, 101/10, 0, 0] : List ℚ).map .fin)
          (.fin 1) ⟨.fin 0, .fin 11, .fin 0, .fin 1, .fin 0, .fin 1⟩ =
        .ok (out, ((toTriples [0, 0, 0, 1/10, 0, 0, 10, 0, 0, 101/10, 0, 0]).map
          (voxelTriple 0 0 0 1⁻¹)).toFinset.card)) :=
  C2_amended [0, 0, 0, 1/10, 0, 0, 10, 0, 0, 101/10, 0, 0] 1 0 11 0 1 0 1
    (by decide) (by decide)

theorem generate_voxel_centers_fin (points : List ℚ) (s mnx mxx mny mxy mnz mxz : ℚ)
    (hs : 0 < s) (hne : points ≠ []) (hmod : points.length % 3 = 0) :
    generate_voxel_centers (points.map .fin) (.fin s)
      ⟨.fin mnx, .fin mxx, .fin mny, .fin mxy, .fin mnz, .fin mxz⟩ =
      .ok ((((toTriples points).foldl (fun s' p =>
          insertSet (voxelTriple mnx mny mnz s⁻¹ p) s') []).map
        (voxelCenter (.fin (mnx + s * (1/2))) (.fin (mny + s * (1/2)))
          (.fin (mnz + s * (1/2))) (.fin s))).flatten) := by
  rw [generate_voxel_centers]
  have g1 : ((points.map PyF.fin) = [] || (points.map PyF.fin).length % 3 != 0) = false := by
    simp [hne, hmod]
  have g2 : ((PyF.fin s).le0 || (PyF.fin s).isnan || (PyF.fin s).isinf) = false := by
    simp [PyF.le0, PyF.isnan, PyF.isinf, not_le.mpr hs]
  rw [g1, g2]
  simp only [Bool.false_eq_true, if_false]
  rw [show GBounds.hasNaN ⟨.fin mnx, .fin mxx, .fin mny, .fin mxy, .fin mnz, .fin mxz⟩ =
    false from rfl]
  simp only [Bool.false_eq_true, if_false]
  show ((toTriplesF (points.map PyF.fin)).foldlM
    (dbgStep (.fin mnx) (.fin mny) (.fin mnz) ((PyF.fin s).rcp)) []) >>= _ = _
  rw [show (PyF.fin s).rcp = PyF.fin s⁻¹ from rfl, toTriplesF_map_fin points,
    dbgFold_fin, exc_bind_ok]
  rfl

set_option maxRecDepth 1000000 in
/-- **C5** (counterexample): on two points in the distinct voxels
`(-1,-1,-1)` and `(-2,-1,-1)` — which collide in the downsample kernel's
packed key — the debug kernel (whose set holds index *triples*) emits two
centers while the downsample kernel's `output_count` is 1. -/
theorem C5_counterexample :
    generate_voxel_centers
      [.fin (-1/2), .fin (-1/2), .fin (-1/2), .fin (-3/2), .fin (-1/2), .fin (-1/2)]
      (.fin 1) ⟨.fin 0, .fin 1, .fin 0, .fin 1, .fin 0, .fin 1⟩ =
      .ok [.fin (-1/2), .fin (-1/2), .fin (-1/2), .fin (-3/2), .fin (-1/2), .fin (-1/2)] ∧
    voxel_downsample
      [.fin (-1/2), .fin (-1/2), .fin (-1/2), .fin (-3/2), .fin (-1/2), .fin (-1/2)]
      (.fin 1) ⟨.fin 0, .fin 1, .fin 0, .fin 1, .fin 0, .fin 1⟩ =
      .ok ([.fin (-1), .fin (-1/2), .fin (-1/2)], 1) ∧
    ([PyF.fin (-1/2), .fin (-1/2), .fin (-1/2), .fin (-3/2), .fin (-1/2),
      .fin (-1/2)] : List PyF).length ≠ 3 * 1 := by
  exact ⟨by decide, by decide, by decide⟩

/-- **C5** (amended): when all points are finite and every per-axis voxel
index lies in `[0, 2^15]` (so the downsample key is injective), the debug
kernel's center count equals the downsample kernel's `output_count` on the
same input: both count the distinct occupied voxels. -/
theorem C5_amended (points : List ℚ) (s mnx mxx mny mxy mnz mxz : ℚ)
    (hs : 0 < s) (hmod : points.length % 3 = 0)
    (hidx : ∀ p ∈ toTriples points,
      0 ≤ (voxelTriple mnx mny mnz s⁻¹ p).1 ∧ (voxelTriple mnx mny mnz s⁻¹ p).1 ≤ 2 ^ 15 ∧
      0 ≤ (voxelTriple mnx mny mnz s⁻¹ p).2.1 ∧ (voxelTriple mnx mny mnz s⁻¹ p).2.1 ≤ 2 ^ 15 ∧
      0 ≤ (voxelTriple mnx mny mnz s⁻¹ p).2.2 ∧ (voxelTriple mnx mny mnz s⁻¹ p).2.2 ≤ 2 ^ 15) :
    ∃ centers out M,
      generate_voxel_centers (points.map .fin) (.fin s)
        ⟨.fin mnx, .fin mxx, .fin mny, .fin mxy, .fin mnz, .fin mxz⟩ = .ok centers ∧
      voxel_downsample (points.map .fin) (.fin s)
        ⟨.fin mnx, .fin mxx, .fin mny, .fin mxy, .fin mnz, .fin mxz⟩ = .ok (out, M) ∧
      centers.length = 3 * M := by
  by_cases hpe : points = []
  · subst hpe
    exact ⟨[], [], 0, rfl, rfl, by norm_num⟩
  · refine ⟨_, _, _, generate_voxel_centers_fin points s mnx mxx mny mxy mnz mxz hs hpe hmod,
      voxel_downsample_fin points s mnx mxx mny mxy mnz mxz hs hpe hmod, ?_⟩
    rw [flatten3_length _ (voxelCenter (.fin (mnx + s * (1/2))) (.fin (mny + s * (1/2)))
      (.fin (mnz + s * (1/2))) (.fin s)) (fun v => rfl)]
    congr 1
    obtain ⟨sn, sset⟩ := foldSet_facts (voxelTriple mnx mny mnz s⁻¹) (toTriples points) []
      (by simp)
    obtain ⟨kn, kset⟩ := foldInsert_facts
      (fun p => voxelKey3 (voxelTriple mnx mny mnz s⁻¹ p))
      (fun p => .fin p.x) (fun p => .fin p.y) (fun p => .fin p.z) (toTriples points) []
      (by simp [mkeys])
    simp only [List.toFinset_nil, Finset.empty_union] at sset
    simp only [mkeys, List.map_nil, List.toFinset_nil, Finset.empty_union] at kset
    have hS : ∀ v ∈ ((toTriples points).map (voxelTriple mnx mny mnz s⁻¹)).toFinset,
        0 ≤ v.1 ∧ v.1 ≤ 2 ^ 15 ∧ 0 ≤ v.2.1 ∧ v.2.1 ≤ 2 ^ 15 ∧
        0 ≤ v.2.2 ∧ v.2.2 ≤ 2 ^ 15 := by
      intro v hv
      rw [List.mem_toFinset] at hv
      obtain ⟨p, hp, rfl⟩ := List.mem_map.mp hv
      exact hidx p hp
    have hmm : (toTriples points).map (fun p => voxelKey3 (voxelTriple mnx mny mnz s⁻¹ p)) =
        ((toTriples points).map (voxelTriple mnx mny mnz s⁻¹)).map voxelKey3 := by
      rw [List.map_map]
      rfl
    have hkn : (List.map Prod.fst ((toTriples points).foldl (fun m p =>
        insertVox (voxelKey3 (voxelTriple mnx mny mnz s⁻¹ p))
          (.fin p.x) (.fin p.y) (.fin p.z) m) [])).Nodup := by
      simpa [mkeys] using kn
    have hlenK : ((toTriples points).foldl (fun m p =>
        insertVox (voxelKey3 (voxelTriple mnx mny mnz s⁻¹ p))
          (.fin p.x) (.fin p.y) (.fin p.z) m) []).length =
        (List.map Prod.fst ((toTriples points).foldl (fun m p =>
          insertVox (voxelKey3 (voxelTriple mnx mny mnz s⁻¹ p))
            (.fin p.x) (.fin p.y) (.fin p.z) m) [])).length := by
      simp
    rw [hlenK, ← List.toFinset_card_of_nodup hkn, kset, hmm, toFinset_map_list,
      ← List.toFinset_card_of_nodup sn, sset]
    exact (Finset.card_image_of_injOn (voxelKey3_injOn _ hS)).symm

set_option maxRecDepth 1000000 in
/-- **C5** (witness for the amended theorem): on the DS-1-style input both
kernels see the same two occupied voxels. -/
theorem C5_amended_witness :
    ∃ centers out M,
      generate_voxel_centers
        (([0, 0, 0, 1/10, 0, 0, 10, 0, 0, 101/10, 0, 0] : List ℚ).map .fin) (.fin 1)
        ⟨.fin 0, .fin 11, .fin 0, .fin 1, .fin 0, .fin 1⟩ = .ok centers ∧
      voxel_downsample
        (([0, 0, 0, 1/10, 0, 0, 10, 0, 0, 101/10, 0, 0] : List ℚ).map .fin) (.fin 1)
        ⟨.fin 0, .fin 11, .fin 0, .fin 1, .fin 0, .fin 1⟩ = .ok (out, M) ∧
      centers.length = 3 * M :=
  C5_amended [0, 0, 0, 1/10, 0, 0, 10, 0, 0, 101/10, 0, 0] 1 0 11 0 1 0 1
    (by decide) (by decide) (by decide)

theorem sub_nonfin (c : PyF) (hc : (c.isnan || c.isinf) = true) (mn : PyF) :
    ((c.sub mn).isnan || (c.sub mn).isinf) = true := by
  cases c <;> simp [PyF.isnan, PyF.isinf] at hc <;> cases mn <;>
    simp [PyF.sub, PyF.isnan, PyF.isinf]

theorem mul_nonfin (a : PyF) (ha : (a.isnan || a.isinf) = true) (b : PyF) :
    ((a.mul b).isnan || (a.mul b).isinf) = true := by
  cases a <;> simp [PyF.isnan, PyF.isinf] at ha <;> cases b <;>
    simp only [PyF.mul] <;>
      (try split) <;> (try split) <;> simp [PyF.isnan, PyF.isinf]

theorem pyFloorInt_nonfin (f : PyF) (hf : (f.isnan || f.isinf) = true) :
    ∃ e, pyFloorInt f = .error e := by
  cases f <;> simp [PyF.isnan, PyF.isinf] at hf <;> exact ⟨_, rfl⟩

theorem nonfin_axis (c : PyF) (hc : (c.isnan || c.isinf) = true) (mn inv : PyF) :
    ∃ e, dsAxis mn inv c = .error e := by
  rw [dsAxis]
  exact pyFloorInt_nonfin _ (mul_nonfin _ (sub_nonfin c hc mn) inv)

theorem axis_ok_fin (c : PyF) (mn inv : PyF) (v : ℤ) (h : dsAxis mn inv c = .ok v) :
    (c.isnan || c.isinf) = false := by
  by_contra hc
  obtain ⟨e, he⟩ := nonfin_axis c (by revert hc; cases (c.isnan || c.isinf) <;> simp) mn inv
  rw [he] at h
  cases h

theorem dsKey_bad (t : PyF × PyF × PyF) (hbad : skipTriple t = true)
    (mnx mny mnz inv : PyF) : ∃ e, dsKey mnx mny mnz inv t = .error e := by
  obtain ⟨x, y, z⟩ := t
  have h0 : dsKey mnx mny mnz inv (x, y, z) =
      (dsAxis mnx inv x >>= fun vx => dsAxis mny inv y >>= fun vy =>
        dsAxis mnz inv z >>= fun vz => pure (voxelKey vx vy vz)) := rfl
  cases hx : dsAxis mnx inv x with
  | error e => exact ⟨e, by simp only [h0, hx, exc_bind_error]⟩
  | ok vx =>
    cases hy : dsAxis mny inv y with
    | error e => exact ⟨e, by simp only [h0, hx, hy, exc_bind_ok, exc_bind_error]⟩
    | ok vy =>
      have hz : (z.isnan || z.isinf) = true := by
        have h1 := axis_ok_fin x mnx inv vx hx
        have h2 := axis_ok_fin y mny inv vy hy
        simp only [skipTriple] at hbad
        revert hbad h1 h2
        cases z.isnan <;> cases z.isinf <;> cases x.isnan <;> cases x.isinf <;>
          cases y.isnan <;> cases y.isinf <;> simp
      obtain ⟨e, he⟩ := nonfin_axis z hz mnz inv
      exact ⟨e, by simp only [h0, hx, hy, he, exc_bind_ok, exc_bind_error]⟩

theorem generate_voxel_centers_run (points : List PyF) (vs : PyF) (gb : GBounds)
    (hne : points ≠ []) (hmod : points.length % 3 = 0)
    (hvs : (vs.le0 || vs.isnan || vs.isinf) = false) (hgb : gb.hasNaN = false) :
    generate_voxel_centers points vs gb =
      ((toTriplesF points).foldlM (dbgStep gb.min_x gb.min_y gb.min_z vs.rcp) []) >>=
        fun s => pure ((s.map (voxelCenter (gb.min_x.add (vs.mul (.fin (1/2))))
          (gb.min_y.add (vs.mul (.fin (1/2)))) (gb.min_z.add (vs.mul (.fin (1/2))))
          vs)).flatten) := by
  rw [generate_voxel_centers]
  have g1 : (points = [] || points.length % 3 != 0) = false := by simp [hne, hmod]
  rw [g1, hvs, hgb]
  rfl

theorem voxel_downsample_run (points : List PyF) (vs : PyF) (gb : GBounds)
    (hne : points ≠ []) (hmod : points.length % 3 = 0)
    (hvs : (vs.le0 || vs.isnan || vs.isinf) = false) (hgb : gb.hasNaN = false) :
    voxel_downsample points vs gb =
      (dsFold gb.min_x gb.min_y gb.min_z vs.rcp (toTriplesF points)) >>=
        fun m => pure ((m.map (fun e => vaccMean e.2)).flatten, m.length) := by
  rw [voxel_downsample]
  have g1 : (points = [] || points.length % 3 != 0) = false := by simp [hne, hmod]
  rw [g1, hvs, hgb]
  rfl

theorem dbgFold_skip_mid (mnx mny mnz inv : PyF) (bad : PyF × PyF × PyF)
    (hbad : skipTriple bad = true) :
    ∀ (TA TB : List (PyF × PyF × PyF)) (s0 : List (ℤ × ℤ × ℤ)),
      (TA ++ bad :: TB).foldlM (dbgStep mnx mny mnz inv) s0 =
        (TA ++ TB).foldlM (dbgStep mnx mny mnz inv) s0 := by
  intro TA
  induction TA with
  | nil =>
    intro TB s0
    rw [List.nil_append, List.nil_append, List.foldlM_cons,
      show dbgStep mnx mny mnz inv s0 bad = pure s0 by simp [dbgStep, hbad]]
    rfl
  | cons t TA ih =>
    intro TB s0
    rw [List.cons_append, List.cons_append, List.foldlM_cons, List.foldlM_cons]
    cases h : dbgStep mnx mny mnz inv s0 t with
    | error e => simp only [h, exc_bind_error]
    | ok s1 => simp only [h, exc_bind_ok, ih]

set_option maxRecDepth 1000000 in
/-- **C3** (counterexample): the binary downsample kernel does not silently
skip a NaN point: on the single point `(NaN, 0, 0)` it raises (the
`math.floor` call fails), while on the input with that point removed it
returns an empty result — the outputs differ. -/
theorem C3_counterexample :
    voxel_downsample [.nan, .fin 0, .fin 0] (.fin 1)
      ⟨.fin 0, .fin 1, .fin 0, .fin 1, .fin 0, .fin 1⟩ =
      .error "ValueError: cannot convert float NaN to integer" ∧
    voxel_downsample ([] : List PyF) (.fin 1)
      ⟨.fin 0, .fin 1, .fin 0, .fin 1, .fin 0, .fin 1⟩ = .ok ([], 0) := by
  exact ⟨by decide, by decide⟩

/-- **C3** (amended): a point with a NaN/Inf coordinate is silently skipped
by the *debug* kernel — removing it does not change the output — but makes
the binary *downsample* kernel raise: its result is an error (so `main`
writes `u32 0` and exits non-zero), not the output on the input with the
point removed. -/
theorem C3_amended (A B : List PyF) (b1 b2 b3 : PyF) (vs : PyF) (gb : GBounds)
    (hA : A.length % 3 = 0) (hB : B.length % 3 = 0)
    (hbad : skipTriple (b1, b2, b3) = true)
    (hvs : (vs.le0 || vs.isnan || vs.isinf) = false)
    (hgb : gb.hasNaN = false) :
    generate_voxel_centers (A ++ [b1, b2, b3] ++ B) vs gb =
      generate_voxel_centers (A ++ B) vs gb ∧
    ∃ e, voxel_downsample (A ++ [b1, b2, b3] ++ B) vs gb = .error e := by
  have hlen1 : (A ++ [b1, b2, b3] ++ B).length % 3 = 0 := by
    simp only [List.length_append, List.length_cons, List.length_nil]
    omega
  have hne1 : A ++ [b1, b2, b3] ++ B ≠ [] := by
    intro h
    have := congrArg List.length h
    simp at this
  have htf : toTriplesF (A ++ [b1, b2, b3] ++ B) =
      toTriplesF A ++ (b1, b2, b3) :: toTriplesF B := by
    rw [List.append_assoc, toTriplesF_append A ([b1, b2, b3] ++ B) hA]
    rfl
  constructor
  · by_cases hab : A ++ B = []
    · obtain ⟨hA0, hB0⟩ := List.append_eq_nil.mp hab
      subst hA0
      subst hB0
      rw [generate_voxel_centers_run _ vs gb hne1 hlen1 hvs hgb]
      rw [show generate_voxel_centers ([] ++ [] : List PyF) vs gb = .ok [] from rfl]
      rw [show toTriplesF ([] ++ [b1, b2, b3] ++ []) = [(b1, b2, b3)] from rfl]
      rw [List.foldlM_cons,
        show dbgStep gb.min_x gb.min_y gb.min_z vs.rcp [] (b1, b2, b3) = pure [] by
          simp [dbgStep, hbad]]
      rfl
    · have hlen2 : (A ++ B).length % 3 = 0 := by
        simp only [List.length_append]
        omega
      rw [generate_voxel_centers_run _ vs gb hne1 hlen1 hvs hgb,
        generate_voxel_centers_run _ vs gb hab hlen2 hvs hgb,
        htf, toTriplesF_append A B hA, dbgFold_skip_mid _ _ _ _ _ hbad]
  · have hstep : ∀ m : List (ℤ × VAcc), ∃ e,
        (do
          let k ← dsKey gb.min_x gb.min_y gb.min_z vs.rcp (b1, b2, b3)
          pure (insertVox k (b1, b2, b3).1 (b1, b2, b3).2.1 (b1, b2, b3).2.2 m) :
          Except String (List (ℤ × VAcc))) = .error e := by
      intro m
      obtain ⟨e, he⟩ := dsKey_bad (b1, b2, b3) hbad gb.min_x gb.min_y gb.min_z vs.rcp
      exact ⟨e, by simp only [he, exc_bind_error]⟩
    have hmem : (b1, b2, b3) ∈ toTriplesF (A ++ [b1, b2, b3] ++ B) := by
      rw [htf]
      exact List.mem_append.mpr (Or.inr (List.mem_cons_self _ _))
    obtain ⟨e, he⟩ := excFoldlM_error (toTriplesF (A ++ [b1, b2, b3] ++ B))
      (fun m t => do
        let k ← dsKey gb.min_x gb.min_y gb.min_z vs.rcp t
        pure (insertVox k t.1 t.2.1 t.2.2 m))
      (b1, b2, b3) hmem hstep []
    refine ⟨e, ?_⟩
    rw [voxel_downsample_run _ vs gb hne1 hlen1 hvs hgb]
    rw [show dsFold gb.min_x gb.min_y gb.min_z vs.rcp
        (toTriplesF (A ++ [b1, b2, b3] ++ B)) =
      (toTriplesF (A ++ [b1, b2, b3] ++ B)).foldlM (fun m t => do
        let k ← dsKey gb.min_x gb.min_y gb.min_z vs.rcp t
        pure (insertVox k t.1 t.2.1 t.2.2 m)) [] from rfl]
    rw [he, exc_bind_error]

set_option maxRecDepth 1000000 in
/-- **C3** (witness for the amended theorem): one finite point plus a NaN
point — the debug kernel's output is unchanged by removing the NaN point,
and the downsample kernel errors. -/
theorem C3_amended_witness :
    (generate_voxel_centers ([.fin 1, .fin 2, .fin 3] ++ [.nan, .fin 0, .fin 0] ++ [])
        (.fin 1) ⟨.fin 0, .fin 4, .fin 0, .fin 4, .fin 0, .fin 4⟩ =
      generate_voxel_centers ([.fin 1, .fin 2, .fin 3] ++ [])
        (.fin 1) ⟨.fin 0, .fin 4, .fin 0, .fin 4, .fin 0, .fin 4⟩) ∧
    ∃ e, voxel_downsample ([.fin 1, .fin 2, .fin 3] ++ [.nan, .fin 0, .fin 0] ++ [])
        (.fin 1) ⟨.fin 0, .fin 4, .fin 0, .fin 4, .fin 0, .fin 4⟩ = .error e :=
  C3_amended [.fin 1, .fin 2, .fin 3] [] .nan (.fin 0) (.fin 0) (.fin 1)
    ⟨.fin 0, .fin 4, .fin 0, .fin 4, .fin 0, .fin 4⟩
    (by decide) (by decide) (by decide) (by decide) (by decide)
